import Mathlib

/-!
# Verification of the `deepmerge` merge engine

A shallow embedding of `src/deepmerge.ts` (the `deepMerge` engine) and of the
`simpleMerge` variant.  JavaScript objects are modelled by an explicit heap of
numbered objects, so that reference identity (used by the engine's `WeakMap`
cycle tracker) is observable; machine state is a heap plus the visited map.
Recursion is fuel-indexed (`none` = out of fuel, or a heap access / property
write that would throw a `TypeError` in strict mode).
-/

set_option maxHeartbeats 1000000

namespace DeepMerge

/-- Primitive JavaScript values (the `Primitive` type of the source:
string, number, boolean, undefined, null; NaN kept as a separate atom so
falsiness is faithful). -/
inductive JSPrim where
  | undef
  | null
  | nan
  | bool (b : Bool)
  | num (n : Int)
  | str (s : String)
deriving DecidableEq

/-- A JavaScript value: a primitive, or a reference to a heap object. -/
inductive Val where
  | prim (p : JSPrim)
  | ref (a : Nat)
deriving DecidableEq

/-- Heap objects: plain records (`MergeableObject`), arrays, Sets, Maps and
Dates (a Date carries its `getTime()` instant). -/
inductive HObj where
  | record (fields : List (String × Val))
  | array (elems : List Val)
  | set (elems : List Val)
  | map (entries : List (Val × Val))
  | date (time : Int)
deriving DecidableEq

/-- Machine state: the heap (address = list index) and the engine's
`visited` WeakMap from source-object identity to destination value. -/
structure St where
  heap : List HObj
  visited : List (Nat × Val)
deriving DecidableEq

/-- First-match association-list lookup (JS property / Map key lookup). -/
def alookup {κ β : Type} [DecidableEq κ] : List (κ × β) → κ → Option β
  | [], _ => none
  | (k, v) :: rest, k' => if k' = k then some v else alookup rest k'

/-- JS property assignment on a record's field list: update the existing
entry in place, else append. -/
def asetFirst {κ β : Type} [DecidableEq κ] : List (κ × β) → κ → β → List (κ × β)
  | [], k, v => [(k, v)]
  | (k₀, v₀) :: rest, k, v =>
    if k = k₀ then (k, v) :: rest else (k₀, v₀) :: asetFirst rest k v

def getObj (st : St) (a : Nat) : Option HObj := st.heap[a]?

def setObj (st : St) (a : Nat) (o : HObj) : St :=
  { st with heap := st.heap.set a o }

/-- Allocate a fresh object, returning its address. -/
def alloc (st : St) (o : HObj) : Nat × St :=
  (st.heap.length, { st with heap := st.heap ++ [o] })

def vlookup (st : St) (a : Nat) : Option Val := alookup st.visited a

def vinsert (st : St) (a : Nat) (v : Val) : St :=
  { st with visited := st.visited ++ [(a, v)] }

/-- JavaScript truthiness. -/
def truthy : Val → Bool
  | .prim .undef => false
  | .prim .null => false
  | .prim .nan => false
  | .prim (.bool b) => b
  | .prim (.num n) => decide (n ≠ 0)
  | .prim (.str s) => decide (s ≠ "")
  | .ref _ => true

/-- `value.constructor.name`; `none` models the `TypeError` thrown when the
value is `null`/`undefined` (or the reference is dangling, which cannot occur
in a real JS heap). -/
def ctorTag (st : St) : Val → Option String
  | .prim .undef => none
  | .prim .null => none
  | .prim .nan => some "Number"
  | .prim (.bool _) => some "Boolean"
  | .prim (.num _) => some "Number"
  | .prim (.str _) => some "String"
  | .ref a =>
    (getObj st a).map fun o =>
      match o with
      | .record _ => "Object"
      | .array _ => "Array"
      | .set _ => "Set"
      | .map _ => "Map"
      | .date _ => "Date"

/-- `isObject` of `src/deepmerge.ts` lines 115-125: `typeof item !== "object"`
rejects all primitives except `null`, which is rejected explicitly; arrays,
`Map`s and `Set`s are rejected; everything else that is an object — plain
records *and `Date` instances* — passes. -/
def isObject (st : St) : Val → Bool
  | .prim _ => false
  | .ref a =>
    match getObj st a with
    | some (.record _) => true
    | some (.date _) => true
    | some (.array _) => false
    | some (.map _) => false
    | some (.set _) => false
    | none => false

/-- The kind of heap object a value references (`none` for primitives and
dangling references); used to model the `instanceof` / `Array.isArray`
dispatch chain, whose cases are mutually exclusive. -/
def objKind (st : St) : Val → Option HObj
  | .prim _ => none
  | .ref a => getObj st a

/-- The enumerable own keys seen by `for (const key in source)`: a record's
field names; a `Date` (which `isObject` lets through) has none. -/
def objKeys : HObj → List String
  | .record fs => fs.map Prod.fst
  | _ => []

/-- Property read `v[k]`.  `none` models the `TypeError` on `null`/`undefined`
bases; other primitives and non-record objects yield `undefined` for the keys
the engine reads; a record yields its field or `undefined`. -/
def readProp (st : St) (v : Val) (k : String) : Option Val :=
  match v with
  | .prim .undef => none
  | .prim .null => none
  | .prim _ => some (.prim .undef)
  | .ref a =>
    match getObj st a with
    | some (.record fs) => some ((alookup fs k).getD (.prim .undef))
    | some _ => some (.prim .undef)
    | none => none

/-- Property write `v[k] = x`.  In strict mode (the source is an ES module)
assigning a property to a primitive throws, modelled by `none`; writes to
non-record objects are outside the behavior exercised here. -/
def writeProp (st : St) (v : Val) (k : String) (x : Val) : Option St :=
  match v with
  | .prim _ => none
  | .ref a =>
    match getObj st a with
    | some (.record fs) => some (setObj st a (.record (asetFirst fs k x)))
    | _ => none

/-- `new Set(iterable)` / `[...new Set(iterable)]` deduplication: keep the
first occurrence of each element (SameValueZero equality, under which
`NaN = NaN`, matches decidable equality on `Val`). -/
def dedupList (l : List Val) : List Val :=
  l.foldl (fun acc v => if v ∈ acc then acc else acc ++ [v]) []

/-- `Map.prototype.set` semantics used by `new Map(entries)`: an existing key
keeps its position and takes the new value, a new key is appended. -/
def jsMapAdd : List (Val × Val) → Val × Val → List (Val × Val)
  | [], e => [e]
  | p :: rest, e => if p.1 = e.1 then e :: rest else p :: jsMapAdd rest e

/-- `new Map(entries)`. -/
def jsMapFrom (l : List (Val × Val)) : List (Val × Val) :=
  l.foldl jsMapAdd []

/-- Spreading `(current[key] as array/set) || []` into an array or Set
literal: a falsy value contributes nothing, arrays and Sets contribute their
elements, anything else would throw (`none`). -/
def spreadElems (st : St) (v : Val) : Option (List Val) :=
  if truthy v then
    match objKind st v with
    | some (.array l) => some l
    | some (.set l) => some l
    | _ => none
  else some []

/-- Spreading `(current[key] as MergeableMap) || []` into a `new Map([...])`
argument: a falsy value contributes nothing, a Map contributes its entries,
anything else would throw (`none`). -/
def spreadMapArg (st : St) (v : Val) : Option (List (Val × Val)) :=
  if truthy v then
    match objKind st v with
    | some (.map es) => some es
    | _ => none
  else some []

/-- Options record (`DeepMergeOptions`), with strategies as raw strings: the
engine's `switch` statements match `"unique"`/`"replace"`/… explicitly and
treat anything else as the default, so unrecognized strings are meaningful. -/
structure Opts where
  arrayMergeStrategy : String
  setMergeStrategy : String
  mapMergeStrategy : String
  dateMergeStrategy : String
  customMergeFunctions : Option (List (String × (Val → Val → Val)))

/-- `DEFAULT_OPTIONS` of the source (`customMergeFunctions` absent). -/
def DEFAULT_OPTIONS : Opts :=
  { arrayMergeStrategy := "combine"
    setMergeStrategy := "combine"
    mapMergeStrategy := "combine"
    dateMergeStrategy := "replace"
    customMergeFunctions := none }

/-- A user-supplied partial options object (absent fields = `none`). -/
structure UserOpts where
  arrayMergeStrategy : Option String
  setMergeStrategy : Option String
  mapMergeStrategy : Option String
  dateMergeStrategy : Option String
  customMergeFunctions : Option (List (String × (Val → Val → Val)))

/-- The spread `{ ...DEFAULT_OPTIONS, ...options }` of `withOptions`:
present user fields override the defaults. -/
def resolveOptions (u : UserOpts) : Opts :=
  { arrayMergeStrategy := u.arrayMergeStrategy.getD "combine"
    setMergeStrategy := u.setMergeStrategy.getD "combine"
    mapMergeStrategy := u.mapMergeStrategy.getD "combine"
    dateMergeStrategy := u.dateMergeStrategy.getD "replace"
    customMergeFunctions := u.customMergeFunctions }

/-- The guarded custom-function lookup
`sourceValue && options.customMergeFunctions &&
options.customMergeFunctions[sourceValue.constructor.name]`:
`some none` = no custom function applies, `some (some f)` = `f` applies,
outer `none` = the `constructor` access would throw.  The truthiness guard is
evaluated first, so the tag of a falsy value is never read. -/
def customHit (opts : Opts) (st : St) (sv : Val) :
    Option (Option (Val → Val → Val)) :=
  if truthy sv then
    match opts.customMergeFunctions with
    | none => some none
    | some fns =>
      match ctorTag st sv with
      | none => none
      | some tag => some (alookup fns tag)
  else some none

/-- The two-way `switch` on `setMergeStrategy` / `mapMergeStrategy`:
`case "replace"`, with `case "combine"` falling into `default`. -/
def stratCase2 {α : Type} (s : String) (replaceRes defaultRes : α) : α :=
  if s = "replace" then replaceRes else defaultRes

/-- The three-way `switch` on `arrayMergeStrategy`:
`case "unique"`, `case "replace"`, with `case "combine"` as `default`. -/
def stratCase3 {α : Type} (s : String) (uniqueRes replaceRes defaultRes : α) : α :=
  if s = "unique" then uniqueRes
  else if s = "replace" then replaceRes
  else defaultRes

/-- The `switch` on `dateMergeStrategy`:
`case "keepEarlier"`, `case "keepLater"`, `default`. -/
def dateStratCase {α : Type} (s : String) (earlierRes laterRes defaultRes : α) : α :=
  if s = "keepEarlier" then earlierRes
  else if s = "keepLater" then laterRes
  else defaultRes

/-- One iteration of the `for (const key in source)` loop of `deepMergeCore`
(source lines 199-286), for key `k` of the source record at `srcA`; `F` is
the recursive engine call used by the nested-record branch. -/
def mergeKey (F : Val → List Val → St → Option (Val × St)) (opts : Opts)
    (cur : Val) (srcA : Nat) (k : String) (st : St) : Option St :=
  match readProp st (.ref srcA) k with
  | none => none
  | some sv =>
    match customHit opts st sv with
    | none => none
    | some (some f) =>
      match readProp st cur k with
      | none => none
      | some old => writeProp st cur k (f old sv)
    | some none =>
      match objKind st sv with
      | some (.map es) =>
        stratCase2 opts.mapMergeStrategy
          (let p := alloc st (.map (jsMapFrom es))
           writeProp p.2 cur k (.ref p.1))
          (match readProp st cur k with
           | none => none
           | some old =>
             match spreadMapArg st old with
             | none => none
             | some os =>
               let p := alloc st (.map (jsMapFrom (os ++ es)))
               writeProp p.2 cur k (.ref p.1))
      | some (.set es) =>
        stratCase2 opts.setMergeStrategy
          (let p := alloc st (.set (dedupList es))
           writeProp p.2 cur k (.ref p.1))
          (match readProp st cur k with
           | none => none
           | some old =>
             match spreadElems st old with
             | none => none
             | some os =>
               let p := alloc st (.set (dedupList (os ++ es)))
               writeProp p.2 cur k (.ref p.1))
      | some (.array es) =>
        stratCase3 opts.arrayMergeStrategy
          (match readProp st cur k with
           | none => none
           | some old =>
             match spreadElems st old with
             | none => none
             | some os =>
               let p := alloc st (.array (dedupList (os ++ es)))
               writeProp p.2 cur k (.ref p.1))
          (writeProp st cur k sv)
          (match readProp st cur k with
           | none => none
           | some old =>
             match spreadElems st old with
             | none => none
             | some os =>
               let p := alloc st (.array (os ++ es))
               writeProp p.2 cur k (.ref p.1))
      | some (.date ts) =>
        match readProp st cur k with
        | none => none
        | some old =>
          match objKind st old with
          | some (.date tOld) =>
            dateStratCase opts.dateMergeStrategy
              (writeProp st cur k (if tOld < ts then old else sv))
              (writeProp st cur k (if tOld > ts then old else sv))
              (writeProp st cur k sv)
          | _ => writeProp st cur k sv
      | some (.record _) =>
        match readProp st cur k with
        | none => none
        | some old =>
          let bs : Val × St :=
            if truthy old then (old, st)
            else (let p := alloc st (.record []); (.ref p.1, p.2))
          match writeProp bs.2 cur k bs.1 with
          | none => none
          | some st₂ =>
            match F bs.1 [sv] st₂ with
            | none => none
            | some (res, st₃) => writeProp st₃ cur k res
      | none => writeProp st cur k sv

/-- The whole `for`-in loop over a snapshot of the source's keys. -/
def mergeKeys (F : Val → List Val → St → Option (Val × St)) (opts : Opts)
    (cur : Val) (srcA : Nat) : List String → St → Option St
  | [], st => some st
  | k :: ks, st =>
    match mergeKey F opts cur srcA k st with
    | some st' => mergeKeys F opts cur srcA ks st'
    | none => none

/-- `deepMergeCore` (source lines 179-293), fuel-indexed.  Pops the first
source; skips `undefined`/`null`; for an `isObject` source checks the cycle
tracker (a hit returns the tracked destination for the *entire* call),
otherwise registers the source, folds its keys into `current`, and recurses
on the remaining sources; a non-`isObject` source is returned as the result
of the whole call. -/
def deepMergeCore : Nat → Opts → Val → List Val → St → Option (Val × St)
  | 0, _, _, _, _ => none
  | _ + 1, _, current, [], st => some (current, st)
  | fuel + 1, opts, current, source :: rest, st =>
    if source = Val.prim .undef ∨ source = Val.prim .null then
      deepMergeCore fuel opts current rest st
    else if isObject st source then
      match source with
      | .ref a =>
        match vlookup st a with
        | some dest => some (dest, st)
        | none =>
          let st₁ := vinsert st a current
          match getObj st₁ a with
          | some o =>
            match mergeKeys (fun c s stx => deepMergeCore fuel opts c s stx)
                opts current a (objKeys o) st₁ with
            | some st₂ => deepMergeCore fuel opts current rest st₂
            | none => none
          | none => none
      | .prim _ => none
    else
      some (source, st)

/-- `deepMerge(...sources)`: fresh empty accumulator (allocated after the
caller's heap), fresh cycle tracker, `DEFAULT_OPTIONS`. -/
def deepMergeRun (fuel : Nat) (heap₀ : List HObj) (sources : List Val) :
    Option (Val × St) :=
  deepMergeCore fuel DEFAULT_OPTIONS (.ref heap₀.length) sources
    { heap := heap₀ ++ [.record []], visited := [] }

/-- `deepMerge.withOptions(options, ...sources)`. -/
def deepMergeWithOptionsRun (fuel : Nat) (heap₀ : List HObj) (u : UserOpts)
    (sources : List Val) : Option (Val × St) :=
  deepMergeCore fuel (resolveOptions u) (.ref heap₀.length) sources
    { heap := heap₀ ++ [.record []], visited := [] }

/-- One iteration of `simpleMergeCore`'s key loop (source lines 352-365):
`isObject` source values are merged recursively as records, everything else
overwrites. -/
def simpleKey (F : Val → List Val → St → Option (Val × St))
    (cur : Val) (srcA : Nat) (k : String) (st : St) : Option St :=
  match readProp st (.ref srcA) k with
  | none => none
  | some sv =>
    if isObject st sv then
      match readProp st cur k with
      | none => none
      | some old =>
        let bs : Val × St :=
          if truthy old then (old, st)
          else (let p := alloc st (.record []); (.ref p.1, p.2))
        match writeProp bs.2 cur k bs.1 with
        | none => none
        | some st₂ =>
          match F bs.1 [sv] st₂ with
          | none => none
          | some (res, st₃) => writeProp st₃ cur k res
    else writeProp st cur k sv

def simpleKeys (F : Val → List Val → St → Option (Val × St))
    (cur : Val) (srcA : Nat) : List String → St → Option St
  | [], st => some st
  | k :: ks, st =>
    match simpleKey F cur srcA k st with
    | some st' => simpleKeys F cur srcA ks st'
    | none => none

/-- `simpleMergeCore` (source lines 337-371): same skeleton as
`deepMergeCore` — skip absent sources, identity-keyed cycle tracking,
terminal return of a non-`isObject` source — with only the record/primitive
distinction per key. -/
def simpleMergeCore : Nat → Val → List Val → St → Option (Val × St)
  | 0, _, _, _ => none
  | _ + 1, current, [], st => some (current, st)
  | fuel + 1, current, source :: rest, st =>
    if source = Val.prim .undef ∨ source = Val.prim .null then
      simpleMergeCore fuel current rest st
    else if isObject st source then
      match source with
      | .ref a =>
        match vlookup st a with
        | some dest => some (dest, st)
        | none =>
          let st₁ := vinsert st a current
          match getObj st₁ a with
          | some o =>
            match simpleKeys (fun c s stx => simpleMergeCore fuel c s stx)
                current a (objKeys o) st₁ with
            | some st₂ => simpleMergeCore fuel current rest st₂
            | none => none
          | none => none
      | .prim _ => none
    else
      some (source, st)

/-- `simpleMerge(...sources)`. -/
def simpleMergeRun (fuel : Nat) (heap₀ : List HObj) (sources : List Val) :
    Option (Val × St) :=
  simpleMergeCore fuel (.ref heap₀.length) sources
    { heap := heap₀ ++ [.record []], visited := [] }

/-! ## Association-list and heap lemmas -/

@[simp] theorem alookup_nil {κ β : Type} [DecidableEq κ] (k : κ) :
    alookup ([] : List (κ × β)) k = none := rfl

@[simp] theorem alookup_cons {κ β : Type} [DecidableEq κ] (k₀ : κ) (v₀ : β)
    (l : List (κ × β)) (k : κ) :
    alookup ((k₀, v₀) :: l) k = if k = k₀ then some v₀ else alookup l k := rfl

@[simp] theorem asetFirst_nil {κ β : Type} [DecidableEq κ] (k : κ) (v : β) :
    asetFirst ([] : List (κ × β)) k v = [(k, v)] := rfl

@[simp] theorem asetFirst_cons {κ β : Type} [DecidableEq κ] (k₀ : κ) (v₀ : β)
    (l : List (κ × β)) (k : κ) (v : β) :
    asetFirst ((k₀, v₀) :: l) k v =
      if k = k₀ then (k, v) :: l else (k₀, v₀) :: asetFirst l k v := rfl

theorem alookup_append_left {κ β : Type} [DecidableEq κ] {l l' : List (κ × β)}
    {k : κ} {v : β} (h : alookup l k = some v) : alookup (l ++ l') k = some v := by
  induction l with
  | nil => simp at h
  | cons p rest ih =>
    obtain ⟨k₀, v₀⟩ := p
    by_cases hk : k = k₀ <;> simp [hk] at h ⊢
    · exact h
    · exact ih h

theorem alookup_append_none {κ β : Type} [DecidableEq κ] {l : List (κ × β)}
    (l' : List (κ × β)) {k : κ} (h : alookup l k = none) :
    alookup (l ++ l') k = alookup l' k := by
  induction l with
  | nil => simp
  | cons p rest ih =>
    obtain ⟨k₀, v₀⟩ := p
    by_cases hk : k = k₀ <;> simp [hk] at h ⊢
    exact ih h

theorem alookup_asetFirst_self {κ β : Type} [DecidableEq κ] (l : List (κ × β))
    (k : κ) (v : β) : alookup (asetFirst l k v) k = some v := by
  induction l with
  | nil => simp
  | cons p rest ih =>
    obtain ⟨k₀, v₀⟩ := p
    by_cases hk : k = k₀ <;> simp [hk, ih]

theorem alookup_asetFirst_ne {κ β : Type} [DecidableEq κ] (l : List (κ × β))
    {k k' : κ} (v : β) (h : k' ≠ k) :
    alookup (asetFirst l k v) k' = alookup l k' := by
  induction l with
  | nil => simp [h]
  | cons p rest ih =>
    obtain ⟨k₀, v₀⟩ := p
    by_cases hk : k = k₀
    · subst hk
      simp [h]
    · by_cases hk' : k' = k₀ <;> simp [hk, hk', ih]

theorem asetFirst_asetFirst {κ β : Type} [DecidableEq κ] (l : List (κ × β))
    (k : κ) (v w : β) : asetFirst (asetFirst l k v) k w = asetFirst l k w := by
  induction l with
  | nil => simp
  | cons p rest ih =>
    obtain ⟨k₀, v₀⟩ := p
    by_cases hk : k = k₀ <;> simp [hk, ih]

theorem getObj_setObj_self {st : St} {a : Nat} (h : a < st.heap.length)
    (o : HObj) : getObj (setObj st a o) a = some o := by
  simp [getObj, setObj, List.getElem?_set_eq_of_lt, h]

theorem getObj_setObj_ne (st : St) {a b : Nat} (o : HObj) (h : a ≠ b) :
    getObj (setObj st a o) b = getObj st b := by
  simp [getObj, setObj, List.getElem?_set_ne h]

theorem length_setObj (st : St) (a : Nat) (o : HObj) :
    (setObj st a o).heap.length = st.heap.length := by
  simp [setObj]

theorem getObj_alloc_lt {st : St} {b : Nat} (o : HObj) (h : b < st.heap.length) :
    getObj (alloc st o).2 b = getObj st b := by
  simp [getObj, alloc, List.getElem?_append_left h]

theorem getObj_alloc_self (st : St) (o : HObj) :
    getObj (alloc st o).2 (alloc st o).1 = some o := by
  simp [getObj, alloc]

theorem visited_setObj (st : St) (a : Nat) (o : HObj) :
    (setObj st a o).visited = st.visited := rfl

theorem visited_alloc (st : St) (o : HObj) :
    (alloc st o).2.visited = st.visited := rfl

theorem stratCase2_default {α : Type} {s : String} (h : s ≠ "replace")
    (a b : α) : stratCase2 s a b = b := by
  simp [stratCase2, h]

theorem stratCase3_default {α : Type} {s : String} (h1 : s ≠ "unique")
    (h2 : s ≠ "replace") (a b c : α) : stratCase3 s a b c = c := by
  simp [stratCase3, h1, h2]

theorem dateStratCase_default {α : Type} {s : String} (h1 : s ≠ "keepEarlier")
    (h2 : s ≠ "keepLater") (a b c : α) : dateStratCase s a b c = c := by
  simp [dateStratCase, h1, h2]

theorem customHit_nofns {opts : Opts} (st : St) (sv : Val)
    (h : opts.customMergeFunctions = none) : customHit opts st sv = some none := by
  simp [customHit, h]

/-! ## C1: a cycle-tracker hit is a terminal return for the whole call -/

/-- C1: if the source Record popped at the head of the source list is already
in the cycle tracker, `deepMergeCore` returns the tracked destination as the
result of the entire call, with the state untouched — neither this source's
keys nor the remaining sources are processed. -/
theorem claim1_cycle_hit_short_circuits (fuel : Nat) (opts : Opts)
    (current : Val) (st : St) (a : Nat) (fs : List (String × Val))
    (rest : List Val) (dest : Val)
    (hrec : getObj st a = some (.record fs))
    (hvis : vlookup st a = some dest) :
    deepMergeCore (fuel + 1) opts current (.ref a :: rest) st = some (dest, st) := by
  have hobj : isObject st (.ref a) = true := by simp [isObject, hrec]
  simp [deepMergeCore, hobj, hvis]

/-- Witness for C1 at a concrete state. -/
theorem claim1_cycle_hit_short_circuits_witness :
    deepMergeCore 1 DEFAULT_OPTIONS (.prim .undef) (.ref 0 :: [.ref 9])
      ⟨[.record []], [(0, .prim (.num 7))]⟩
      = some (.prim (.num 7), ⟨[.record []], [(0, .prim (.num 7))]⟩) :=
  claim1_cycle_hit_short_circuits 0 DEFAULT_OPTIONS (.prim .undef)
    ⟨[.record []], [(0, .prim (.num 7))]⟩ 0 [] [.ref 9] (.prim (.num 7))
    (by decide) (by decide)

/-! ## C2: terminal return of non-Record top-level sources -/

/-- C2 counterexample: a top-level `DateScalar` source is *not* returned as
the result of the call.  `isObject` classifies a `Date` as an object, so the
engine registers it in the tracker, iterates its (zero) enumerable own keys,
and returns the fresh accumulator `ref 1`, not the date `ref 0`. -/
theorem claim2_counterexample :
    deepMergeRun 3 [.date 0] [.ref 0]
        = some (.ref 1, ⟨[.date 0, .record []], [(0, .ref 1)]⟩) ∧
      Val.ref 1 ≠ Val.ref 0 := by
  constructor <;> decide

/-- A top-level source that the engine's `isObject` really rejects: a
non-nullish primitive, or a reference to an array, Set or Map — but not a
`Date`, which `isObject` classifies together with records. -/
def TerminalTopSource (st : St) (s : Val) : Prop :=
  (∃ p, s = Val.prim p ∧ p ≠ .undef ∧ p ≠ .null) ∨
    (∃ a l, s = Val.ref a ∧
      (getObj st a = some (.array l) ∨ getObj st a = some (.set l))) ∨
    (∃ a es, s = Val.ref a ∧ getObj st a = some (.map es))

/-- C2 (amended): for a top-level source that is a Sequence, UniqueSet,
AssocMap, or non-nullish Primitive — but not a DateScalar, which `isObject`
treats as a Record (iterating its zero own keys and continuing with the
remaining sources) — the engine returns that source itself as the result of
the whole call, discarding the accumulator and all remaining sources. -/
theorem claim2_nonrecord_terminal (fuel : Nat) (opts : Opts) (current : Val)
    (st : St) (s : Val) (rest : List Val) (h : TerminalTopSource st s) :
    deepMergeCore (fuel + 1) opts current (s :: rest) st = some (s, st) := by
  rcases h with ⟨p, rfl, hp1, hp2⟩ | ⟨a, l, rfl, harr | hset⟩ | ⟨a, es, rfl, hmap⟩
  · have hobj : isObject st (.prim p) = false := rfl
    simp [deepMergeCore, hobj, hp1, hp2]
  · have hobj : isObject st (.ref a) = false := by simp [isObject, harr]
    simp [deepMergeCore, hobj]
  · have hobj : isObject st (.ref a) = false := by simp [isObject, hset]
    simp [deepMergeCore, hobj]
  · have hobj : isObject st (.ref a) = false := by simp [isObject, hmap]
    simp [deepMergeCore, hobj]

/-- Witness for the amended C2 at concrete inputs: an array, a Set, a Map and
a number at the top level each short-circuit the whole call. -/
theorem claim2_nonrecord_terminal_witness :
    deepMergeCore 1 DEFAULT_OPTIONS (.ref 3) [.ref 0, .ref 9]
        ⟨[.array [], .set [], .map [], .record []], []⟩
      = some (.ref 0, ⟨[.array [], .set [], .map [], .record []], []⟩) ∧
    deepMergeCore 1 DEFAULT_OPTIONS (.ref 3) [.ref 1, .ref 9]
        ⟨[.array [], .set [], .map [], .record []], []⟩
      = some (.ref 1, ⟨[.array [], .set [], .map [], .record []], []⟩) ∧
    deepMergeCore 1 DEFAULT_OPTIONS (.ref 3) [.ref 2, .ref 9]
        ⟨[.array [], .set [], .map [], .record []], []⟩
      = some (.ref 2, ⟨[.array [], .set [], .map [], .record []], []⟩) ∧
    deepMergeCore 1 DEFAULT_OPTIONS (.ref 3) [.prim (.num 5), .ref 9]
        ⟨[.array [], .set [], .map [], .record []], []⟩
      = some (.prim (.num 5), ⟨[.array [], .set [], .map [], .record []], []⟩) :=
  ⟨claim2_nonrecord_terminal 0 _ _ _ _ _ (Or.inr (Or.inl ⟨0, [], rfl, Or.inl rfl⟩)),
   claim2_nonrecord_terminal 0 _ _ _ _ _ (Or.inr (Or.inl ⟨1, [], rfl, Or.inr rfl⟩)),
   claim2_nonrecord_terminal 0 _ _ _ _ _ (Or.inr (Or.inr ⟨2, [], rfl, rfl⟩)),
   claim2_nonrecord_terminal 0 _ _ _ _ _ (Or.inl ⟨.num 5, rfl, by decide, by decide⟩)⟩

/-! ## C10: falsy source values never reach the custom-function branch -/

/-- C10: for a falsy source field value (false, 0, "", null, undefined, NaN)
the custom-merge-function branch is never taken even when the options carry a
matching type tag — the guard is evaluated before the `constructor.name`
access, whose evaluation on `null`/`undefined` would throw (`ctorTag` is
`none` there) — and a `null`/`undefined` field value falls through to the
primitive branch, directly overwriting the accumulator's value at that key. -/
theorem claim10_falsy_skips_custom (F : Val → List Val → St → Option (Val × St))
    (opts : Opts) (cur : Val) (srcA : Nat) (k : String) (st : St) (sv : Val)
    (fns : List (String × (Val → Val → Val)))
    (hfns : opts.customMergeFunctions = some fns)
    (hsv : readProp st (.ref srcA) k = some sv)
    (hfalsy : truthy sv = false) :
    customHit opts st sv = some none ∧
    ctorTag st (.prim .null) = none ∧
    ctorTag st (.prim .undef) = none ∧
    ((sv = .prim .null ∨ sv = .prim .undef) →
      mergeKey F opts cur srcA k st = writeProp st cur k sv) := by
  have hch : customHit opts st sv = some none := by
    simp [customHit, hfalsy]
  refine ⟨hch, rfl, rfl, fun hnull => ?_⟩
  have hkind : objKind st sv = none := by
    rcases hnull with rfl | rfl <;> rfl
  simp [mergeKey, hsv, hch, hkind]

/-- Witness for C10: a `null` field under options with a `"Null"`-tagged (and
`"Object"`-tagged) custom function is written through the primitive branch. -/
theorem claim10_falsy_skips_custom_witness :
    customHit
        ⟨"combine", "combine", "combine", "replace",
          some [("Object", fun t _ => t)]⟩
        ⟨[.record [("a", .prim .null)], .record []], []⟩ (.prim .null)
      = some none ∧
    ctorTag ⟨[.record [("a", .prim .null)], .record []], []⟩ (.prim .null) = none ∧
    ctorTag ⟨[.record [("a", .prim .null)], .record []], []⟩ (.prim .undef) = none ∧
    ((Val.prim .null = Val.prim .null ∨ Val.prim .null = Val.prim .undef) →
      mergeKey (fun _ _ _ => none)
          ⟨"combine", "combine", "combine", "replace",
            some [("Object", fun t _ => t)]⟩
          (.ref 1) 0 "a" ⟨[.record [("a", .prim .null)], .record []], []⟩
        = writeProp ⟨[.record [("a", .prim .null)], .record []], []⟩
            (.ref 1) "a" (.prim .null)) :=
  claim10_falsy_skips_custom (fun _ _ _ => none)
    ⟨"combine", "combine", "combine", "replace", some [("Object", fun t _ => t)]⟩
    (.ref 1) 0 "a" ⟨[.record [("a", .prim .null)], .record []], []⟩
    (.prim .null) [("Object", fun t _ => t)] rfl (by decide) (by decide)

/-! ## C5: DateScalar fields and `dateMergeStrategy` -/

/-- C5: for a source field that is a Date: if the accumulator's value at the
key is not a Date, the source is assigned unconditionally regardless of
strategy; otherwise `"keepEarlier"` keeps the strictly earlier instant (the
source wins ties), `"keepLater"` keeps the strictly later instant (the source
wins ties), and `"replace"` or any other strategy string assigns the
source. -/
theorem claim5_date_strategies (F : Val → List Val → St → Option (Val × St))
    (opts : Opts) (cur : Val) (srcA : Nat) (k : String) (st : St)
    (sv : Val) (da : Nat) (ts : Int) (old : Val)
    (hnofns : opts.customMergeFunctions = none)
    (hsv : readProp st (.ref srcA) k = some sv)
    (hda : sv = .ref da) (hdate : getObj st da = some (.date ts))
    (hold : readProp st cur k = some old) :
    ((∀ tOld, objKind st old ≠ some (.date tOld)) →
      mergeKey F opts cur srcA k st = writeProp st cur k sv) ∧
    (∀ tOld, objKind st old = some (.date tOld) →
      (opts.dateMergeStrategy = "keepEarlier" →
        mergeKey F opts cur srcA k st
          = writeProp st cur k (if tOld < ts then old else sv)) ∧
      (opts.dateMergeStrategy = "keepLater" →
        mergeKey F opts cur srcA k st
          = writeProp st cur k (if tOld > ts then old else sv)) ∧
      (opts.dateMergeStrategy ≠ "keepEarlier" →
        opts.dateMergeStrategy ≠ "keepLater" →
        mergeKey F opts cur srcA k st = writeProp st cur k sv)) := by
  subst hda
  have hch := @customHit_nofns opts st (.ref da) hnofns
  have hkind : objKind st (.ref da) = some (.date ts) := hdate
  constructor
  · intro hnotdate
    rcases hko : objKind st old with _ | o
    · simp [mergeKey, hsv, hch, hkind, hold, hko]
    · cases o <;> simp [mergeKey, hsv, hch, hkind, hold, hko]
      exact absurd hko (hnotdate _)
  · intro tOld hko
    refine ⟨fun hs => ?_, fun hs => ?_, fun hs1 hs2 => ?_⟩
    · simp [mergeKey, hsv, hch, hkind, hold, hko, dateStratCase, hs]
    · simp [mergeKey, hsv, hch, hkind, hold, hko, dateStratCase, hs]
    · simp [mergeKey, hsv, hch, hkind, hold, hko, dateStratCase, hs1, hs2]

/-- Witness for C5: an accumulator Date at time 3 against a source Date at
time 3 under each strategy (with an additional non-Date accumulator case
exercised through the same theorem instance). -/
theorem claim5_date_strategies_witness :
    ((∀ tOld, objKind ⟨[.record [("d", .ref 1)], .date 3,
          .record [("d", .ref 3)], .date 3], []⟩ (.ref 3)
        ≠ some (.date tOld)) →
      mergeKey (fun _ _ _ => none)
          ⟨"combine", "combine", "combine", "keepEarlier", none⟩ (.ref 2) 0 "d"
          ⟨[.record [("d", .ref 1)], .date 3, .record [("d", .ref 3)], .date 3], []⟩
        = writeProp ⟨[.record [("d", .ref 1)], .date 3,
            .record [("d", .ref 3)], .date 3], []⟩ (.ref 2) "d" (.ref 1)) ∧
    (∀ tOld, objKind ⟨[.record [("d", .ref 1)], .date 3,
          .record [("d", .ref 3)], .date 3], []⟩ (.ref 3)
        = some (.date tOld) →
      (("keepEarlier" : String) = "keepEarlier" →
        mergeKey (fun _ _ _ => none)
            ⟨"combine", "combine", "combine", "keepEarlier", none⟩ (.ref 2) 0 "d"
            ⟨[.record [("d", .ref 1)], .date 3, .record [("d", .ref 3)], .date 3], []⟩
          = writeProp ⟨[.record [("d", .ref 1)], .date 3,
              .record [("d", .ref 3)], .date 3], []⟩ (.ref 2) "d"
              (if tOld < 3 then Val.ref 3 else Val.ref 1)) ∧
      (("keepEarlier" : String) = "keepLater" →
        mergeKey (fun _ _ _ => none)
            ⟨"combine", "combine", "combine", "keepEarlier", none⟩ (.ref 2) 0 "d"
            ⟨[.record [("d", .ref 1)], .date 3, .record [("d", .ref 3)], .date 3], []⟩
          = writeProp ⟨[.record [("d", .ref 1)], .date 3,
              .record [("d", .ref 3)], .date 3], []⟩ (.ref 2) "d"
              (if tOld > 3 then Val.ref 3 else Val.ref 1)) ∧
      (("keepEarlier" : String) ≠ "keepEarlier" →
        ("keepEarlier" : String) ≠ "keepLater" →
        mergeKey (fun _ _ _ => none)
            ⟨"combine", "combine", "combine", "keepEarlier", none⟩ (.ref 2) 0 "d"
            ⟨[.record [("d", .ref 1)], .date 3, .record [("d", .ref 3)], .date 3], []⟩
          = writeProp ⟨[.record [("d", .ref 1)], .date 3,
              .record [("d", .ref 3)], .date 3], []⟩ (.ref 2) "d" (.ref 1))) :=
  claim5_date_strategies (fun _ _ _ => none)
    ⟨"combine", "combine", "combine", "keepEarlier", none⟩ (.ref 2) 0 "d"
    ⟨[.record [("d", .ref 1)], .date 3, .record [("d", .ref 3)], .date 3], []⟩
    (.ref 1) 1 3 (.ref 3) rfl (by decide) rfl (by decide) (by decide)

/-! ## C7: custom merge functions override the built-in per-type rules -/

/-- C7: when `customMergeFunctions` has an entry for the source value's
runtime type tag (and the value is truthy, so the tag is read), the engine
sets `accumulator[key] = f(old, sv)` and applies none of the built-in rules:
the resulting state is exactly the single field write, with no allocation and
no strategy dispatch.  For a Date-valued field the tag is necessarily
`"Date"`, so a `"Date"` entry replaces the `dateMergeStrategy` handling. -/
theorem claim7_custom_overrides (F : Val → List Val → St → Option (Val × St))
    (opts : Opts) (cur : Val) (srcA : Nat) (k : String) (st : St)
    (sv : Val) (fns : List (String × (Val → Val → Val))) (tag : String)
    (f : Val → Val → Val) (old : Val)
    (hfns : opts.customMergeFunctions = some fns)
    (hsv : readProp st (.ref srcA) k = some sv)
    (htr : truthy sv = true)
    (htag : ctorTag st sv = some tag)
    (hf : alookup fns tag = some f)
    (hold : readProp st cur k = some old) :
    mergeKey F opts cur srcA k st = writeProp st cur k (f old sv) ∧
    (∀ da t, sv = .ref da → getObj st da = some (.date t) → tag = "Date") := by
  have hch : customHit opts st sv = some (some f) := by
    simp [customHit, htr, hfns, htag, hf]
  refine ⟨by simp [mergeKey, hsv, hch, hold], fun da t hda hdate => ?_⟩
  subst hda
  simp [ctorTag, hdate] at htag
  exact htag.symm

/-- Witness for C7: a `"Date"`-keyed custom function applied to a Date field
replaces the built-in date handling. -/
theorem claim7_custom_overrides_witness :
    mergeKey (fun _ _ _ => none)
        ⟨"combine", "combine", "combine", "keepEarlier",
          some [("Date", fun _ s => s)]⟩
        (.ref 2) 0 "d"
        ⟨[.record [("d", .ref 1)], .date 3, .record [("d", .ref 3)], .date 9], []⟩
      = writeProp ⟨[.record [("d", .ref 1)], .date 3,
          .record [("d", .ref 3)], .date 9], []⟩ (.ref 2) "d"
          ((fun _ s => s) (Val.ref 3) (Val.ref 1)) ∧
    (∀ da t, Val.ref 1 = Val.ref da →
      getObj ⟨[.record [("d", .ref 1)], .date 3,
          .record [("d", .ref 3)], .date 9], []⟩ da = some (.date t) →
      ("Date" : String) = "Date") :=
  claim7_custom_overrides (fun _ _ _ => none)
    ⟨"combine", "combine", "combine", "keepEarlier", some [("Date", fun _ s => s)]⟩
    (.ref 2) 0 "d"
    ⟨[.record [("d", .ref 1)], .date 3, .record [("d", .ref 3)], .date 9], []⟩
    (.ref 1) [("Date", fun _ s => s)] "Date" (fun _ s => s) (.ref 3)
    rfl (by decide) (by decide) (by decide) rfl (by decide)

/-! ## Engine congruence in the options (used for unrecognized strategies) -/

theorem customHit_congr {o₁ o₂ : Opts}
    (hcust : o₁.customMergeFunctions = o₂.customMergeFunctions) (st : St)
    (sv : Val) : customHit o₁ st sv = customHit o₂ st sv := by
  unfold customHit
  rw [hcust]

theorem mergeKey_congr (F₁ F₂ : Val → List Val → St → Option (Val × St))
    (hF : ∀ c s stx, F₁ c s stx = F₂ c s stx) (o₁ o₂ : Opts)
    (harr : ∀ (a b c : Option St),
      stratCase3 o₁.arrayMergeStrategy a b c = stratCase3 o₂.arrayMergeStrategy a b c)
    (hset : o₁.setMergeStrategy = o₂.setMergeStrategy)
    (hmap : o₁.mapMergeStrategy = o₂.mapMergeStrategy)
    (hdate : o₁.dateMergeStrategy = o₂.dateMergeStrategy)
    (hcust : o₁.customMergeFunctions = o₂.customMergeFunctions)
    (cur : Val) (a : Nat) (k : String) (st : St) :
    mergeKey F₁ o₁ cur a k st = mergeKey F₂ o₂ cur a k st := by
  simp only [mergeKey, customHit_congr hcust, hset, hmap, hdate, harr, hF]

theorem mergeKeys_congr (F₁ F₂ : Val → List Val → St → Option (Val × St))
    (hF : ∀ c s stx, F₁ c s stx = F₂ c s stx) (o₁ o₂ : Opts)
    (harr : ∀ (a b c : Option St),
      stratCase3 o₁.arrayMergeStrategy a b c = stratCase3 o₂.arrayMergeStrategy a b c)
    (hset : o₁.setMergeStrategy = o₂.setMergeStrategy)
    (hmap : o₁.mapMergeStrategy = o₂.mapMergeStrategy)
    (hdate : o₁.dateMergeStrategy = o₂.dateMergeStrategy)
    (hcust : o₁.customMergeFunctions = o₂.customMergeFunctions)
    (cur : Val) (a : Nat) (keys : List String) (st : St) :
    mergeKeys F₁ o₁ cur a keys st = mergeKeys F₂ o₂ cur a keys st := by
  induction keys generalizing st with
  | nil => rfl
  | cons k ks ih =>
    simp only [mergeKeys,
      mergeKey_congr F₁ F₂ hF o₁ o₂ harr hset hmap hdate hcust cur a k st]
    cases mergeKey F₂ o₂ cur a k st with
    | none => rfl
    | some st' => exact ih st'

theorem deepMergeCore_congr (o₁ o₂ : Opts)
    (harr : ∀ (a b c : Option St),
      stratCase3 o₁.arrayMergeStrategy a b c = stratCase3 o₂.arrayMergeStrategy a b c)
    (hset : o₁.setMergeStrategy = o₂.setMergeStrategy)
    (hmap : o₁.mapMergeStrategy = o₂.mapMergeStrategy)
    (hdate : o₁.dateMergeStrategy = o₂.dateMergeStrategy)
    (hcust : o₁.customMergeFunctions = o₂.customMergeFunctions) :
    ∀ (fuel : Nat) (cur : Val) (srcs : List Val) (st : St),
      deepMergeCore fuel o₁ cur srcs st = deepMergeCore fuel o₂ cur srcs st := by
  intro fuel
  induction fuel with
  | zero => intro cur srcs st; rfl
  | succ f ih =>
    intro cur srcs st
    cases srcs with
    | nil => rfl
    | cons s rest =>
      by_cases h0 : (s = Val.prim .undef ∨ s = Val.prim .null)
      · simp only [deepMergeCore, if_pos h0, ih]
      · by_cases hio : isObject st s
        · cases s with
          | prim p => simp only [deepMergeCore, if_neg h0, if_pos hio]
          | ref a =>
            cases hv : vlookup st a with
            | some d => simp only [deepMergeCore, if_neg h0, if_pos hio, hv]
            | none =>
              cases hg : getObj (vinsert st a cur) a with
              | none => simp only [deepMergeCore, if_neg h0, if_pos hio, hv, hg]
              | some o =>
                have hmk := mergeKeys_congr
                  (fun c sx stx => deepMergeCore f o₁ c sx stx)
                  (fun c sx stx => deepMergeCore f o₂ c sx stx)
                  (fun c sx stx => ih c sx stx) o₁ o₂ harr hset hmap hdate hcust
                  cur a (objKeys o) (vinsert st a cur)
                simp only [deepMergeCore, if_neg h0, if_pos hio, hv, hg, hmk]
                cases mergeKeys (fun c sx stx => deepMergeCore f o₂ c sx stx)
                    o₂ cur a (objKeys o) (vinsert st a cur) with
                | none => rfl
                | some st₂ => simp only [ih]
        · simp only [deepMergeCore, if_neg h0, if_neg hio]

/-! ## C4: array strategies on `{arr:[1,2,3]}` merged with `{arr:[3,4,5]}` -/

/-- The two-record heap for the array-strategy scenario:
`obj1 = {arr:[1,2,3]}` at address 0 (its array at 1) and
`obj2 = {arr:[3,4,5]}` at address 2 (its array at 3). -/
def arrHeap : List HObj :=
  [.record [("arr", .ref 1)],
   .array [.prim (.num 1), .prim (.num 2), .prim (.num 3)],
   .record [("arr", .ref 3)],
   .array [.prim (.num 3), .prim (.num 4), .prim (.num 5)]]

/-- User options selecting only an array strategy. -/
def arrOnly (s : String) : UserOpts := ⟨some s, none, none, none, none⟩

/-- C4: on `{arr:[1,2,3]}` merged with `{arr:[3,4,5]}`, any strategy string
other than `"unique"`/`"replace"` (in particular `"combine"` and any
unrecognized value; an absent strategy resolves to `"combine"`) yields
`arr = [1,2,3,3,4,5]`; `"unique"` yields `[1,2,3,4,5]` (first-occurrence
order, equality dedup); `"replace"` leaves `arr` aliasing the source array
itself at address 3 (`[3,4,5]`, no copy). -/
theorem claim4_array_strategies (s : String) (h1 : s ≠ "unique")
    (h2 : s ≠ "replace") :
    (∃ st', deepMergeWithOptionsRun 6 arrHeap (arrOnly s) [.ref 0, .ref 2]
        = some (.ref 4, st') ∧
      readProp st' (.ref 4) "arr" = some (.ref 6) ∧
      getObj st' 6 = some (.array [.prim (.num 1), .prim (.num 2),
        .prim (.num 3), .prim (.num 3), .prim (.num 4), .prim (.num 5)])) ∧
    ((resolveOptions (arrOnly s)).arrayMergeStrategy = s ∧
      (resolveOptions ⟨none, none, none, none, none⟩).arrayMergeStrategy
        = "combine") ∧
    (∃ st', deepMergeWithOptionsRun 6 arrHeap (arrOnly "unique") [.ref 0, .ref 2]
        = some (.ref 4, st') ∧
      readProp st' (.ref 4) "arr" = some (.ref 6) ∧
      getObj st' 6 = some (.array [.prim (.num 1), .prim (.num 2),
        .prim (.num 3), .prim (.num 4), .prim (.num 5)])) ∧
    (∃ st', deepMergeWithOptionsRun 6 arrHeap (arrOnly "replace") [.ref 0, .ref 2]
        = some (.ref 4, st') ∧
      readProp st' (.ref 4) "arr" = some (.ref 3) ∧
      getObj st' 3 = some (.array [.prim (.num 3), .prim (.num 4),
        .prim (.num 5)])) := by
  have harr : ∀ (a b c : Option St), stratCase3 s a b c = stratCase3 "combine" a b c := by
    intro a b c
    rw [stratCase3_default h1 h2]
    rfl
  have hrw : deepMergeWithOptionsRun 6 arrHeap (arrOnly s) [.ref 0, .ref 2]
      = deepMergeWithOptionsRun 6 arrHeap (arrOnly "combine") [.ref 0, .ref 2] := by
    unfold deepMergeWithOptionsRun
    exact deepMergeCore_congr (resolveOptions (arrOnly s))
      (resolveOptions (arrOnly "combine")) harr rfl rfl rfl rfl 6 _ _ _
  refine ⟨?_, ⟨rfl, rfl⟩, ?_, ?_⟩
  · rw [hrw]
    exact ⟨⟨arrHeap ++ [.record [("arr", .ref 6)],
        .array [.prim (.num 1), .prim (.num 2), .prim (.num 3)],
        .array [.prim (.num 1), .prim (.num 2), .prim (.num 3),
          .prim (.num 3), .prim (.num 4), .prim (.num 5)]],
      [(0, .ref 4), (2, .ref 4)]⟩, by decide, by decide, by decide⟩
  · exact ⟨⟨arrHeap ++ [.record [("arr", .ref 6)],
        .array [.prim (.num 1), .prim (.num 2), .prim (.num 3)],
        .array [.prim (.num 1), .prim (.num 2), .prim (.num 3),
          .prim (.num 4), .prim (.num 5)]],
      [(0, .ref 4), (2, .ref 4)]⟩, by decide, by decide, by decide⟩
  · exact ⟨⟨arrHeap ++ [.record [("arr", .ref 3)]],
      [(0, .ref 4), (2, .ref 4)]⟩, by decide, by decide, by decide⟩

/-- Witness for C4 at the concrete unrecognized strategy `"mystery"`. -/
theorem claim4_array_strategies_witness :
    (∃ st', deepMergeWithOptionsRun 6 arrHeap (arrOnly "mystery") [.ref 0, .ref 2]
        = some (.ref 4, st') ∧
      readProp st' (.ref 4) "arr" = some (.ref 6) ∧
      getObj st' 6 = some (.array [.prim (.num 1), .prim (.num 2),
        .prim (.num 3), .prim (.num 3), .prim (.num 4), .prim (.num 5)])) ∧
    ((resolveOptions (arrOnly "mystery")).arrayMergeStrategy = "mystery" ∧
      (resolveOptions ⟨none, none, none, none, none⟩).arrayMergeStrategy
        = "combine") ∧
    (∃ st', deepMergeWithOptionsRun 6 arrHeap (arrOnly "unique") [.ref 0, .ref 2]
        = some (.ref 4, st') ∧
      readProp st' (.ref 4) "arr" = some (.ref 6) ∧
      getObj st' 6 = some (.array [.prim (.num 1), .prim (.num 2),
        .prim (.num 3), .prim (.num 4), .prim (.num 5)])) ∧
    (∃ st', deepMergeWithOptionsRun 6 arrHeap (arrOnly "replace") [.ref 0, .ref 2]
        = some (.ref 4, st') ∧
      readProp st' (.ref 4) "arr" = some (.ref 3) ∧
      getObj st' 3 = some (.array [.prim (.num 3), .prim (.num 4),
        .prim (.num 5)])) :=
  claim4_array_strategies "mystery" (by decide) (by decide)

/-! ## C8: the `simpleMerge` reduced engine -/

/-- C8 counterexample: `simpleMerge({a: date})` does *not* overwrite `a` with
the Date as an opaque primitive.  `simpleMerge`'s `isObject` also classifies
`Date`s as objects, so the Date field is merged recursively as a Record: the
result's `a` is a fresh empty record at address 3, not the Date at 1. -/
theorem claim8_counterexample :
    simpleMergeRun 5 [.record [("a", .ref 1)], .date 5] [.ref 0]
        = some (.ref 2, ⟨[.record [("a", .ref 1)], .date 5,
            .record [("a", .ref 3)], .record []],
          [(0, .ref 2), (1, .ref 3)]⟩) ∧
      Val.ref 3 ≠ Val.ref 1 ∧
      getObj ⟨[.record [("a", .ref 1)], .date 5, .record [("a", .ref 3)],
          .record []], [(0, .ref 2), (1, .ref 3)]⟩ 3 = some (.record []) := by
  refine ⟨by decide, by decide, by decide⟩

/-- C8 (amended): `simpleMerge` overwrites Sequence-, UniqueSet- and
AssocMap-valued fields with the source value as an opaque primitive (never
combining), skips `undefined`/`null` sources, and applies the identical
identity-keyed cycle-detection short-circuit as `deepMerge`; a DateScalar
field, however, is classified as a Record by `isObject` and recursively
merged rather than overwritten. -/
theorem claim8_simple_behavior :
    (∀ (F : Val → List Val → St → Option (Val × St)) (cur : Val) (srcA : Nat)
        (k : String) (st : St) (sv : Val) (sa : Nat),
      readProp st (.ref srcA) k = some sv → sv = .ref sa →
      ((∃ l, getObj st sa = some (.array l)) ∨
        (∃ l, getObj st sa = some (.set l)) ∨
        (∃ es, getObj st sa = some (.map es))) →
      simpleKey F cur srcA k st = writeProp st cur k sv) ∧
    (∀ (fuel : Nat) (cur : Val) (rest : List Val) (st : St),
      simpleMergeCore (fuel + 1) cur (.prim .undef :: rest) st
          = simpleMergeCore fuel cur rest st ∧
        simpleMergeCore (fuel + 1) cur (.prim .null :: rest) st
          = simpleMergeCore fuel cur rest st) ∧
    (∀ (fuel : Nat) (cur : Val) (st : St) (a : Nat)
        (fs : List (String × Val)) (rest : List Val) (dest : Val),
      getObj st a = some (.record fs) → vlookup st a = some dest →
      simpleMergeCore (fuel + 1) cur (.ref a :: rest) st = some (dest, st)) := by
  refine ⟨?_, ?_, ?_⟩
  · intro F cur srcA k st sv sa hsv href hkind
    subst href
    have hio : isObject st (.ref sa) = false := by
      rcases hkind with ⟨l, hl⟩ | ⟨l, hl⟩ | ⟨es, hl⟩ <;> simp [isObject, hl]
    simp [simpleKey, hsv, hio]
  · intro fuel cur rest st
    constructor <;> simp [simpleMergeCore]
  · intro fuel cur st a fs rest dest hrec hvis
    have hobj : isObject st (.ref a) = true := by simp [isObject, hrec]
    simp [simpleMergeCore, hobj, hvis]

/-- Witness for the amended C8 at concrete inputs. -/
theorem claim8_simple_behavior_witness :
    simpleKey (fun _ _ _ => none) (.ref 2) 0 "a"
        ⟨[.record [("a", .ref 1)], .array [], .record []], []⟩
      = writeProp ⟨[.record [("a", .ref 1)], .array [], .record []], []⟩
          (.ref 2) "a" (.ref 1) ∧
    simpleMergeCore 3 (.ref 2) [.prim .undef]
        ⟨[.record [("a", .ref 1)], .array [], .record []], []⟩
      = simpleMergeCore 2 (.ref 2) []
          ⟨[.record [("a", .ref 1)], .array [], .record []], []⟩ ∧
    simpleMergeCore 3 (.ref 2) [.ref 0]
        ⟨[.record [("a", .ref 1)], .array [], .record []], [(0, .prim (.str "x"))]⟩
      = some (.prim (.str "x"),
          ⟨[.record [("a", .ref 1)], .array [], .record []],
            [(0, .prim (.str "x"))]⟩) :=
  ⟨claim8_simple_behavior.1 (fun _ _ _ => none) (.ref 2) 0 "a"
      ⟨[.record [("a", .ref 1)], .array [], .record []], []⟩ (.ref 1) 1
      (by decide) rfl (Or.inl ⟨[], rfl⟩),
    (claim8_simple_behavior.2.1 2 (.ref 2) []
      ⟨[.record [("a", .ref 1)], .array [], .record []], []⟩).1,
    claim8_simple_behavior.2.2 2 (.ref 2)
      ⟨[.record [("a", .ref 1)], .array [], .record []], [(0, .prim (.str "x"))]⟩
      0 [("a", .ref 1)] [] (.prim (.str "x")) (by decide) (by decide)⟩

/-! ## C6: `new Map` entry-merging lemmas -/

theorem keys_jsMapAdd (acc : List (Val × Val)) (e : Val × Val) :
    (jsMapAdd acc e).map Prod.fst =
      if e.1 ∈ acc.map Prod.fst then acc.map Prod.fst
      else acc.map Prod.fst ++ [e.1] := by
  induction acc with
  | nil => simp [jsMapAdd]
  | cons p rest ih =>
    by_cases hp : p.1 = e.1
    · simp [jsMapAdd, hp]
    · have : ¬e.1 = p.1 := fun h => hp h.symm
      simp only [jsMapAdd, if_neg hp, List.map_cons, List.mem_cons, this,
        false_or, ih]
      by_cases hm : e.1 ∈ rest.map Prod.fst <;> simp [hm]

theorem alookup_jsMapAdd_self (acc : List (Val × Val)) (e : Val × Val) :
    alookup (jsMapAdd acc e) e.1 = some e.2 := by
  obtain ⟨k, v⟩ := e
  induction acc with
  | nil => simp [jsMapAdd]
  | cons p rest ih =>
    obtain ⟨k₀, v₀⟩ := p
    by_cases hp : k₀ = k
    · simp [jsMapAdd, hp]
    · have h2 : ¬k = k₀ := fun h => hp h.symm
      simp [jsMapAdd, hp, h2, ih]

theorem alookup_jsMapAdd_ne (acc : List (Val × Val)) (e : Val × Val)
    {k' : Val} (h : k' ≠ e.1) :
    alookup (jsMapAdd acc e) k' = alookup acc k' := by
  obtain ⟨k, v⟩ := e
  simp only at h
  induction acc with
  | nil => simp [jsMapAdd, h]
  | cons p rest ih =>
    obtain ⟨k₀, v₀⟩ := p
    by_cases hp : k₀ = k
    · subst hp
      simp [jsMapAdd, h]
    · simp only [jsMapAdd, if_neg hp, alookup_cons]
      by_cases hk : k' = k₀ <;> simp [hk, ih]

theorem jsMapAdd_notmem (acc : List (Val × Val)) (e : Val × Val)
    (h : e.1 ∉ acc.map Prod.fst) : jsMapAdd acc e = acc ++ [e] := by
  induction acc with
  | nil => simp [jsMapAdd]
  | cons p rest ih =>
    simp only [List.map_cons, List.mem_cons] at h
    push_neg at h
    have : ¬p.1 = e.1 := fun hh => h.1 hh.symm
    simp [jsMapAdd, this, ih h.2]

theorem foldl_jsMapAdd_notmem (es : List (Val × Val)) :
    ∀ (acc : List (Val × Val)) {kk : Val}, kk ∉ es.map Prod.fst →
    alookup (es.foldl jsMapAdd acc) kk = alookup acc kk := by
  induction es with
  | nil => intro acc kk _; rfl
  | cons e rest ih =>
    intro acc kk h
    simp only [List.map_cons, List.mem_cons] at h
    push_neg at h
    rw [List.foldl_cons, ih _ h.2, alookup_jsMapAdd_ne _ _ h.1]

theorem foldl_jsMapAdd_mem (es : List (Val × Val)) :
    ∀ (acc : List (Val × Val)) {kk vv : Val}, (es.map Prod.fst).Nodup →
    (kk, vv) ∈ es → alookup (es.foldl jsMapAdd acc) kk = some vv := by
  induction es with
  | nil => intro acc kk vv _ hmem; simp at hmem
  | cons e rest ih =>
    intro acc kk vv hnd hmem
    simp only [List.map_cons, List.nodup_cons] at hnd
    rcases List.mem_cons.mp hmem with rfl | hmem'
    · rw [List.foldl_cons, foldl_jsMapAdd_notmem rest _ hnd.1]
      exact alookup_jsMapAdd_self acc (kk, vv)
    · rw [List.foldl_cons]
      exact ih _ hnd.2 hmem'

theorem foldl_jsMapAdd_disjoint (os : List (Val × Val)) :
    ∀ (acc : List (Val × Val)), (os.map Prod.fst).Nodup →
    (∀ p ∈ os, p.1 ∉ acc.map Prod.fst) →
    os.foldl jsMapAdd acc = acc ++ os := by
  induction os with
  | nil => simp
  | cons e rest ih =>
    intro acc hnd hdisj
    simp only [List.map_cons, List.nodup_cons] at hnd
    rw [List.foldl_cons, jsMapAdd_notmem acc e (hdisj e (List.mem_cons_self e rest))]
    rw [ih (acc ++ [e]) hnd.2]
    · simp
    · intro p hp
      simp only [List.map_append, List.mem_append, List.map_cons]
      rintro (hmem | hmem)
      · exact hdisj p (List.mem_cons_of_mem e hp) hmem
      · simp only [List.map_nil, List.mem_cons, List.not_mem_nil, or_false] at hmem
        exact hnd.1 (hmem ▸ List.mem_map_of_mem Prod.fst hp)

theorem jsMapFrom_nodup (os : List (Val × Val))
    (hnd : (os.map Prod.fst).Nodup) : jsMapFrom os = os := by
  unfold jsMapFrom
  rw [foldl_jsMapAdd_disjoint os [] hnd (by simp)]
  simp

theorem keys_foldl_jsMapAdd (es : List (Val × Val)) :
    ∀ (acc : List (Val × Val)), (es.map Prod.fst).Nodup →
    (es.foldl jsMapAdd acc).map Prod.fst =
      acc.map Prod.fst ++
        (es.map Prod.fst).filter (fun kk => kk ∉ acc.map Prod.fst) := by
  induction es with
  | nil => simp
  | cons e rest ih =>
    intro acc hnd
    simp only [List.map_cons, List.nodup_cons] at hnd
    rw [List.foldl_cons, ih _ hnd.2]
    simp only [keys_jsMapAdd]
    by_cases hm : e.1 ∈ acc.map Prod.fst
    · simp only [if_pos hm, List.map_cons, List.filter_cons]
      simp [hm]
    · simp only [if_neg hm, List.map_cons, List.filter_cons]
      have hd : decide (e.1 ∉ acc.map Prod.fst) = true := by simp [hm]
      rw [hd]
      simp only [if_true]
      rw [List.append_assoc, List.singleton_append]
      congr 1
      congr 1
      apply List.filter_congr
      intro kk hkk
      have hne : kk ≠ e.1 := fun h => hnd.1 (h ▸ hkk)
      simp [hne]

theorem alookup_of_mem_nodup {os : List (Val × Val)} {kk vv : Val}
    (hnd : (os.map Prod.fst).Nodup) (hmem : (kk, vv) ∈ os) :
    alookup os kk = some vv := by
  induction os with
  | nil => simp at hmem
  | cons p rest ih =>
    simp only [List.map_cons, List.nodup_cons] at hnd
    rcases List.mem_cons.mp hmem with rfl | hmem'
    · simp
    · have hne : kk ≠ p.1 := by
        rintro rfl
        exact hnd.1 (List.mem_map.mpr ⟨(p.1, vv), hmem', rfl⟩)
      obtain ⟨k₀, v₀⟩ := p
      simp only [alookup_cons, if_neg hne]
      exact ih hnd.2 hmem'

/-- C6: a source AssocMap field under `mapMergeStrategy` other than
`"replace"` (i.e. `"combine"`, absent, or any unrecognized string) assigns a
freshly allocated map whose entries are `new Map([...old, ...source])`: every
non-colliding entry of both sides is kept, colliding keys take the source's
value while keeping their accumulator-side position, and iteration order is
the accumulator entries in their order followed by the source-only entries in
source order. -/
theorem claim6_map_combine (F : Val → List Val → St → Option (Val × St))
    (opts : Opts) (cur : Val) (srcA : Nat) (k : String) (st : St)
    (sv : Val) (ma : Nat) (es : List (Val × Val)) (old : Val)
    (os : List (Val × Val))
    (hstrat : opts.mapMergeStrategy ≠ "replace")
    (hnofns : opts.customMergeFunctions = none)
    (hsv : readProp st (.ref srcA) k = some sv)
    (hma : sv = .ref ma) (hmap : getObj st ma = some (.map es))
    (hold : readProp st cur k = some old)
    (hos : spreadMapArg st old = some os)
    (hndos : (os.map Prod.fst).Nodup) (hndes : (es.map Prod.fst).Nodup) :
    ∃ E, mergeKey F opts cur srcA k st =
        writeProp (alloc st (.map E)).2 cur k (.ref (alloc st (.map E)).1) ∧
      E = jsMapFrom (os ++ es) ∧
      E.map Prod.fst = os.map Prod.fst ++
        (es.map Prod.fst).filter (fun kk => kk ∉ os.map Prod.fst) ∧
      (∀ kk vv, (kk, vv) ∈ es → alookup E kk = some vv) ∧
      (∀ kk vv, (kk, vv) ∈ os → kk ∉ es.map Prod.fst →
        alookup E kk = some vv) := by
  subst hma
  have hch := @customHit_nofns opts st (.ref ma) hnofns
  have hkind : objKind st (.ref ma) = some (.map es) := hmap
  have hfold : jsMapFrom (os ++ es) = es.foldl jsMapAdd os := by
    unfold jsMapFrom
    rw [List.foldl_append]
    rw [show List.foldl jsMapAdd [] os = jsMapFrom os from rfl,
      jsMapFrom_nodup os hndos]
  refine ⟨jsMapFrom (os ++ es), ?_, rfl, ?_, ?_, ?_⟩
  · simp [mergeKey, hsv, hch, hkind, hold, hos, stratCase2_default hstrat]
  · rw [hfold, keys_foldl_jsMapAdd es os hndes]
  · intro kk vv hmem
    rw [hfold]
    exact foldl_jsMapAdd_mem es os hndes hmem
  · intro kk vv hmem hnotin
    rw [hfold, foldl_jsMapAdd_notmem es os hnotin]
    exact alookup_of_mem_nodup hndos hmem

/-- Witness for C6: `{x: Map{"x":1,"y":2}}` merged with `{x: Map{"y":3}}`
(the scenario of the repository's "Map Combine" test). -/
theorem claim6_map_combine_witness :
    ∃ E, mergeKey (fun _ _ _ => none) DEFAULT_OPTIONS (.ref 4) 2 "x"
        ⟨[.record [("x", .ref 1)],
          .map [(.prim (.str "x"), .prim (.num 1)),
                (.prim (.str "y"), .prim (.num 2))],
          .record [("x", .ref 3)],
          .map [(.prim (.str "y"), .prim (.num 3))],
          .record [("x", .ref 1)]], []⟩ =
        writeProp (alloc ⟨[.record [("x", .ref 1)],
          .map [(.prim (.str "x"), .prim (.num 1)),
                (.prim (.str "y"), .prim (.num 2))],
          .record [("x", .ref 3)],
          .map [(.prim (.str "y"), .prim (.num 3))],
          .record [("x", .ref 1)]], []⟩ (.map E)).2 (.ref 4) "x"
          (.ref (alloc ⟨[.record [("x", .ref 1)],
            .map [(.prim (.str "x"), .prim (.num 1)),
                  (.prim (.str "y"), .prim (.num 2))],
            .record [("x", .ref 3)],
            .map [(.prim (.str "y"), .prim (.num 3))],
            .record [("x", .ref 1)]], []⟩ (.map E)).1) ∧
      E = jsMapFrom ([(.prim (.str "x"), .prim (.num 1)),
          (.prim (.str "y"), .prim (.num 2))] ++
          [(.prim (.str "y"), .prim (.num 3))]) ∧
      E.map Prod.fst = [Val.prim (.str "x"), Val.prim (.str "y")].map id ++
        ([Val.prim (.str "y")].map id).filter
          (fun kk => kk ∉ [Val.prim (.str "x"), Val.prim (.str "y")].map id) ∧
      (∀ kk vv, (kk, vv) ∈ [(Val.prim (.str "y"), Val.prim (.num 3))] →
        alookup E kk = some vv) ∧
      (∀ kk vv, (kk, vv) ∈ [(Val.prim (.str "x"), Val.prim (.num 1)),
          (Val.prim (.str "y"), Val.prim (.num 2))] →
        kk ∉ [Val.prim (.str "y")].map id → alookup E kk = some vv) := by
  have h := claim6_map_combine (fun _ _ _ => none) DEFAULT_OPTIONS (.ref 4) 2 "x"
    ⟨[.record [("x", .ref 1)],
      .map [(.prim (.str "x"), .prim (.num 1)),
            (.prim (.str "y"), .prim (.num 2))],
      .record [("x", .ref 3)],
      .map [(.prim (.str "y"), .prim (.num 3))],
      .record [("x", .ref 1)]], []⟩
    (.ref 3) 3 [(.prim (.str "y"), .prim (.num 3))] (.ref 1)
    [(.prim (.str "x"), .prim (.num 1)), (.prim (.str "y"), .prim (.num 2))]
    (by decide) rfl (by decide) rfl (by decide) (by decide) (by decide)
    (by decide) (by decide)
  simpa using h

/-! ## Well-formed heaps, run invariant and termination measure -/

/-- A value's references stay below `n` (JS heaps have no dangling refs). -/
def valBelow (n : Nat) : Val → Bool
  | .ref a => decide (a < n)
  | .prim _ => true

/-- Object well-formedness: stored values point below `n`; records have
distinct keys (as JS objects do). -/
def wfObj (n : Nat) : HObj → Bool
  | .record fs => (fs.map Prod.snd).all (valBelow n) &&
      decide ((fs.map Prod.fst).Nodup)
  | .array l => l.all (valBelow n)
  | .set l => l.all (valBelow n)
  | .map es => es.all (fun e => valBelow n e.1 && valBelow n e.2)
  | .date _ => true

/-- A closed, JS-like heap. -/
def wfHeap (h : List HObj) : Prop := ∀ o ∈ h, wfObj h.length o = true

instance wfHeapDecidable (h : List HObj) : Decidable (wfHeap h) :=
  List.decidableBAll (fun o => wfObj h.length o = true) h

/-- Run invariant relative to the caller's heap `heap₀`: the heap only grows,
the original objects are never mutated, and the cycle tracker only holds
original source addresses. -/
def Inv (heap₀ : List HObj) (st : St) : Prop :=
  heap₀.length ≤ st.heap.length ∧
    (∀ b, b < heap₀.length → st.heap[b]? = heap₀[b]?) ∧
    (∀ p ∈ st.visited, p.1 < heap₀.length)

/-- Termination measure: the number of original record addresses not yet in
the cycle tracker. -/
def unvisitedRecs (heap₀ : List HObj) (st : St) : Nat :=
  ((List.range heap₀.length).filter (fun b =>
    (match heap₀[b]? with | some (.record _) => true | _ => false) &&
      (alookup st.visited b).isNone)).length

theorem filter_length_le {α : Type} (l : List α) (p q : α → Bool)
    (himp : ∀ b ∈ l, q b = true → p b = true) :
    (l.filter q).length ≤ (l.filter p).length := by
  induction l with
  | nil => simp
  | cons a t ih =>
    have iht := ih (fun b hb => himp b (List.mem_cons_of_mem a hb))
    rw [List.filter_cons, List.filter_cons]
    cases hq : q a with
    | true =>
      rw [himp a (List.mem_cons_self a t) hq]
      simpa using iht
    | false =>
      cases hp : p a <;> simp <;> omega

theorem filter_length_lt {α : Type} (l : List α) (p q : α → Bool)
    (himp : ∀ b ∈ l, q b = true → p b = true)
    (hex : ∃ b ∈ l, p b = true ∧ q b = false) :
    (l.filter q).length < (l.filter p).length := by
  induction l with
  | nil => simp at hex
  | cons a t ih =>
    have hle := filter_length_le t p q (fun b hb => himp b (List.mem_cons_of_mem a hb))
    rw [List.filter_cons, List.filter_cons]
    rcases hex with ⟨b, hb, hpb, hqb⟩
    rcases List.mem_cons.mp hb with rfl | hbt
    · rw [hqb, hpb]
      simpa using Nat.lt_succ_of_le hle
    · cases hq : q a with
      | true =>
        rw [himp a (List.mem_cons_self a t) hq]
        have := ih (fun b' hb' => himp b' (List.mem_cons_of_mem a hb'))
          ⟨b, hbt, hpb, hqb⟩
        simpa using this
      | false =>
        have := ih (fun b' hb' => himp b' (List.mem_cons_of_mem a hb'))
          ⟨b, hbt, hpb, hqb⟩
        cases hp : p a <;> simp <;> omega

theorem alookup_mem {κ β : Type} [DecidableEq κ] {l : List (κ × β)} {k : κ}
    {v : β} (h : alookup l k = some v) : (k, v) ∈ l := by
  induction l with
  | nil => simp at h
  | cons p rest ih =>
    obtain ⟨k₀, v₀⟩ := p
    by_cases hk : k = k₀
    · subst hk
      simp at h
      simp [h]
    · simp [hk] at h
      exact List.mem_cons_of_mem _ (ih h)

theorem alookup_append_isNone {κ β : Type} [DecidableEq κ] {l δ : List (κ × β)}
    {k : κ} (h : alookup (l ++ δ) k = none) : alookup l k = none := by
  cases hl : alookup l k with
  | none => rfl
  | some v => rw [alookup_append_left hl] at h; cases h

/-- Inserting an unvisited original record address strictly decreases the
measure. -/
theorem unvisitedRecs_vinsert_lt (heap₀ : List HObj) (st : St) (a : Nat)
    (v : Val) (ha : a < heap₀.length) (fs : List (String × Val))
    (hrec : heap₀[a]? = some (.record fs))
    (hun : alookup st.visited a = none) :
    unvisitedRecs heap₀ (vinsert st a v) < unvisitedRecs heap₀ st := by
  apply filter_length_lt
  · intro b _ hq
    rw [Bool.and_eq_true] at hq ⊢
    refine ⟨hq.1, ?_⟩
    have h2 := hq.2
    simp only [vinsert, Option.isNone_iff_eq_none] at h2 ⊢
    exact alookup_append_isNone h2
  · refine ⟨a, List.mem_range.mpr ha, ?_, ?_⟩
    · simp [hrec, hun]
    · simp only [vinsert, Bool.and_eq_false_iff]
      right
      rw [alookup_append_none _ hun]
      simp

/-- The measure never increases as the tracker grows. -/
theorem unvisitedRecs_le_of_append (heap₀ : List HObj) {st st' : St}
    (h : ∃ δ, st'.visited = st.visited ++ δ) :
    unvisitedRecs heap₀ st' ≤ unvisitedRecs heap₀ st := by
  rcases h with ⟨δ, hδ⟩
  apply filter_length_le
  intro b _ hq
  rw [Bool.and_eq_true] at hq ⊢
  refine ⟨hq.1, ?_⟩
  have h2 := hq.2
  simp only [hδ, Option.isNone_iff_eq_none] at h2 ⊢
  exact alookup_append_isNone h2

/-- Any call with the cycle tracker already holding the head source returns
the tracked destination (general helper behind the C1 claim). -/
theorem core_visited_hit (fuel : Nat) (opts : Opts) (current : Val) (st : St)
    (a : Nat) (rest : List Val) (dest : Val)
    (hobj : isObject st (.ref a) = true)
    (hvis : vlookup st a = some dest) :
    deepMergeCore (fuel + 1) opts current (.ref a :: rest) st
      = some (dest, st) := by
  simp [deepMergeCore, hobj, hvis]

theorem core_nil (fuel : Nat) (opts : Opts) (current : Val) (st : St) :
    deepMergeCore (fuel + 1) opts current [] st = some (current, st) := rfl

theorem getObj_lt_length {st : St} {c : Nat} {o : HObj}
    (h : getObj st c = some o) : c < st.heap.length := by
  by_contra hc
  rw [getObj, List.getElem?_eq_none (Nat.le_of_not_lt hc)] at h
  cases h

/-- The effect bundle of one engine step on the state, relative to the
current record at `c`: invariant preserved, tracker extended, heap grown,
and all other pre-existing objects untouched. -/
def StepOut (heap₀ : List HObj) (st st' : St) (c : Nat) : Prop :=
  Inv heap₀ st' ∧ (∃ δ, st'.visited = st.visited ++ δ) ∧
    st.heap.length ≤ st'.heap.length ∧
    (∀ b, b < st.heap.length → b ≠ c → st'.heap[b]? = st.heap[b]?)

theorem stepOut_write (heap₀ : List HObj) (st : St) (c : Nat)
    (g : List (String × Val)) (hinv : Inv heap₀ st)
    (hc : heap₀.length ≤ c) (hcl : c < st.heap.length) :
    StepOut heap₀ st (setObj st c (.record g)) c ∧
      getObj (setObj st c (.record g)) c = some (.record g) ∧
      (setObj st c (.record g)).visited = st.visited := by
  obtain ⟨h1, h2, h3⟩ := hinv
  refine ⟨⟨⟨?_, ?_, ?_⟩, ⟨[], by simp [setObj]⟩, ?_, ?_⟩, ?_, rfl⟩
  · rw [length_setObj]; exact h1
  · intro b hb
    have hne : c ≠ b := Nat.ne_of_gt (by omega)
    have := getObj_setObj_ne st (.record g) hne
    rw [getObj, getObj] at this
    rw [this]
    exact h2 b hb
  · intro p hp
    exact h3 p hp
  · rw [length_setObj]
  · intro b _ hbc
    have := getObj_setObj_ne st (.record g) (fun h => hbc h.symm)
    rw [getObj, getObj] at this
    exact this
  · exact getObj_setObj_self hcl _

theorem stepOut_alloc_write (heap₀ : List HObj) (st : St) (c : Nat)
    (o : HObj) (g : List (String × Val)) (hinv : Inv heap₀ st)
    (hc : heap₀.length ≤ c) (hcl : c < st.heap.length) :
    StepOut heap₀ st (setObj (alloc st o).2 c (.record g)) c ∧
      getObj (setObj (alloc st o).2 c (.record g)) c = some (.record g) ∧
      (setObj (alloc st o).2 c (.record g)).visited = st.visited ∧
      getObj (setObj (alloc st o).2 c (.record g)) st.heap.length = some o := by
  obtain ⟨h1, h2, h3⟩ := hinv
  have hlen : (alloc st o).2.heap.length = st.heap.length + 1 := by
    simp [alloc]
  have hcl' : c < (alloc st o).2.heap.length := by omega
  refine ⟨⟨⟨?_, ?_, ?_⟩, ⟨[], by simp [setObj, alloc]⟩, ?_, ?_⟩, ?_, rfl, ?_⟩
  · rw [length_setObj, hlen]; omega
  · intro b hb
    have hne : c ≠ b := Nat.ne_of_gt (by omega)
    have hs := getObj_setObj_ne (alloc st o).2 (.record g) hne
    rw [getObj, getObj] at hs
    rw [hs]
    have ha := @getObj_alloc_lt st b o (by omega)
    rw [getObj, getObj] at ha
    rw [ha]
    exact h2 b hb
  · intro p hp
    exact h3 p hp
  · rw [length_setObj, hlen]; omega
  · intro b hb hbc
    have hs := getObj_setObj_ne (alloc st o).2 (.record g)
      (fun h => hbc h.symm)
    rw [getObj, getObj] at hs
    rw [hs]
    have ha := @getObj_alloc_lt st b o hb
    rw [getObj, getObj] at ha
    exact ha
  · exact getObj_setObj_self hcl' _
  · have hne : c ≠ st.heap.length := Nat.ne_of_lt (by omega)
    have hs := getObj_setObj_ne (alloc st o).2 (.record g) hne
    rw [hs]
    exact getObj_alloc_self st o

/-- Reading a key that is absent from the current record yields `undefined`. -/
theorem customHit_default (st : St) (sv : Val) :
    customHit DEFAULT_OPTIONS st sv = some none :=
  @customHit_nofns DEFAULT_OPTIONS st sv rfl

theorem alloc_fst (st : St) (o : HObj) : (alloc st o).1 = st.heap.length := rfl

theorem readProp_fresh {st : St} {c : Nat} {cf : List (String × Val)}
    {k : String} (hg : getObj st c = some (.record cf))
    (hfresh : alookup cf k = none) :
    readProp st (.ref c) k = some (.prim .undef) := by
  simp [readProp, hg, hfresh]

/-- Reading key `k` of the source record at `ra`. -/
theorem readProp_src {st : St} {ra : Nat} {rfs : List (String × Val)}
    (k : String) (hg : getObj st ra = some (.record rfs)) :
    readProp st (.ref ra) k = some ((alookup rfs k).getD (.prim .undef)) := by
  simp [readProp, hg]

/-! ### Per-branch evaluations of `mergeKey` under default options on a
fresh key of the current record -/

theorem mergeKey_eval_prim (F : Val → List Val → St → Option (Val × St))
    {st : St} {c ra : Nat} {cf : List (String × Val)} {k : String} {sv : Val}
    (hsv : readProp st (.ref ra) k = some sv)
    (hkind : objKind st sv = none)
    (hg : getObj st c = some (.record cf)) :
    mergeKey F DEFAULT_OPTIONS (.ref c) ra k st
      = some (setObj st c (.record (asetFirst cf k sv))) := by
  simp [mergeKey, hsv, @customHit_nofns DEFAULT_OPTIONS st sv rfl, hkind, writeProp, hg]

theorem mergeKey_eval_date (F : Val → List Val → St → Option (Val × St))
    {st : St} {c ra sa : Nat} {cf : List (String × Val)} {k : String}
    {t : Int} (hsv : readProp st (.ref ra) k = some (.ref sa))
    (hkind : getObj st sa = some (.date t))
    (hg : getObj st c = some (.record cf))
    (hfresh : alookup cf k = none) :
    mergeKey F DEFAULT_OPTIONS (.ref c) ra k st
      = some (setObj st c (.record (asetFirst cf k (.ref sa)))) := by
  have hold := readProp_fresh hg hfresh
  have hk : objKind st (Val.ref sa) = some (.date t) := hkind
  simp [mergeKey, hsv, @customHit_nofns DEFAULT_OPTIONS st _ rfl, hk, hkind,
    hold, writeProp, hg, objKind]

theorem mergeKey_eval_array (F : Val → List Val → St → Option (Val × St))
    {st : St} {c ra sa : Nat} {cf : List (String × Val)} {k : String}
    {l : List Val} (hsv : readProp st (.ref ra) k = some (.ref sa))
    (hkind : getObj st sa = some (.array l))
    (hg : getObj st c = some (.record cf))
    (hfresh : alookup cf k = none) :
    mergeKey F DEFAULT_OPTIONS (.ref c) ra k st
      = some (setObj (alloc st (.array l)).2 c
          (.record (asetFirst cf k (.ref st.heap.length)))) := by
  have hold := readProp_fresh hg hfresh
  have hk : objKind st (Val.ref sa) = some (.array l) := hkind
  have hsp : spreadElems st (.prim .undef) = some [] := rfl
  have hstrt : DEFAULT_OPTIONS.arrayMergeStrategy = "combine" := rfl
  have hgc : getObj (alloc st (.array l)).2 c = some (.record cf) := by
    have hh := getObj_alloc_lt (HObj.array l) (getObj_lt_length hg)
    rw [hh]
    exact hg
  simp [mergeKey, hsv, customHit_default, hk, hold, hsp, hstrt, stratCase3,
    writeProp, hgc, alloc_fst]

theorem mergeKey_eval_set (F : Val → List Val → St → Option (Val × St))
    {st : St} {c ra sa : Nat} {cf : List (String × Val)} {k : String}
    {l : List Val} (hsv : readProp st (.ref ra) k = some (.ref sa))
    (hkind : getObj st sa = some (.set l))
    (hg : getObj st c = some (.record cf))
    (hfresh : alookup cf k = none) :
    mergeKey F DEFAULT_OPTIONS (.ref c) ra k st
      = some (setObj (alloc st (.set (dedupList l))).2 c
          (.record (asetFirst cf k (.ref st.heap.length)))) := by
  have hold := readProp_fresh hg hfresh
  have hk : objKind st (Val.ref sa) = some (.set l) := hkind
  have hsp : spreadElems st (.prim .undef) = some [] := rfl
  have hstrt : DEFAULT_OPTIONS.setMergeStrategy = "combine" := rfl
  have hgc : getObj (alloc st (.set (dedupList l))).2 c
      = some (.record cf) := by
    have hh := getObj_alloc_lt (HObj.set (dedupList l)) (getObj_lt_length hg)
    rw [hh]
    exact hg
  simp [mergeKey, hsv, customHit_default, hk, hold, hsp, hstrt, stratCase2,
    writeProp, hgc, alloc_fst]

theorem mergeKey_eval_map (F : Val → List Val → St → Option (Val × St))
    {st : St} {c ra sa : Nat} {cf : List (String × Val)} {k : String}
    {es : List (Val × Val)} (hsv : readProp st (.ref ra) k = some (.ref sa))
    (hkind : getObj st sa = some (.map es))
    (hg : getObj st c = some (.record cf))
    (hfresh : alookup cf k = none) :
    mergeKey F DEFAULT_OPTIONS (.ref c) ra k st
      = some (setObj (alloc st (.map (jsMapFrom es))).2 c
          (.record (asetFirst cf k (.ref st.heap.length)))) := by
  have hold := readProp_fresh hg hfresh
  have hk : objKind st (Val.ref sa) = some (.map es) := hkind
  have hsp : spreadMapArg st (.prim .undef) = some [] := rfl
  have hstrt : DEFAULT_OPTIONS.mapMergeStrategy = "combine" := rfl
  have hgc : getObj (alloc st (.map (jsMapFrom es))).2 c
      = some (.record cf) := by
    have hh := getObj_alloc_lt (HObj.map (jsMapFrom es)) (getObj_lt_length hg)
    rw [hh]
    exact hg
  simp [mergeKey, hsv, customHit_default, hk, hold, hsp, hstrt, stratCase2,
    writeProp, hgc, alloc_fst]

theorem mergeKey_eval_record (F : Val → List Val → St → Option (Val × St))
    {st : St} {c ra sa : Nat} {cf : List (String × Val)} {k : String}
    {rfs' : List (String × Val)}
    (hsv : readProp st (.ref ra) k = some (.ref sa))
    (hkind : getObj st sa = some (.record rfs'))
    (hg : getObj st c = some (.record cf))
    (hfresh : alookup cf k = none) :
    mergeKey F DEFAULT_OPTIONS (.ref c) ra k st
      = match F (.ref st.heap.length) [.ref sa]
          (setObj (alloc st (.record [])).2 c
            (.record (asetFirst cf k (.ref st.heap.length)))) with
        | none => none
        | some (res, st₃) =>
          writeProp st₃ (.ref c) k res := by
  have hold := readProp_fresh hg hfresh
  have hk : objKind st (Val.ref sa) = some (.record rfs') := hkind
  have hgc : getObj (alloc st (.record [])).2 c = some (.record cf) := by
    have hh := getObj_alloc_lt (HObj.record []) (getObj_lt_length hg)
    rw [hh]
    exact hg
  simp [mergeKey, hsv, customHit_default, hk, hold, truthy, writeProp,
    hgc, alloc_fst]

theorem stepOut_trans {heap₀ : List HObj} {st st₁ st₂ : St} {c : Nat}
    (h1 : StepOut heap₀ st st₁ c) (h2 : StepOut heap₀ st₁ st₂ c) :
    StepOut heap₀ st st₂ c := by
  obtain ⟨_, ⟨δ₁, hδ₁⟩, hl₁, hp₁⟩ := h1
  obtain ⟨hi₂, ⟨δ₂, hδ₂⟩, hl₂, hp₂⟩ := h2
  refine ⟨hi₂, ⟨δ₁ ++ δ₂, by rw [hδ₂, hδ₁, List.append_assoc]⟩,
    le_trans hl₁ hl₂, ?_⟩
  intro b hb hbc
  rw [hp₂ b (lt_of_lt_of_le hb hl₁) hbc, hp₁ b hb hbc]

theorem vinsert_visited (st : St) (a : Nat) (v : Val) :
    (vinsert st a v).visited = st.visited ++ [(a, v)] := rfl

theorem getObj_vinsert (st : St) (a : Nat) (v : Val) (x : Nat) :
    getObj (vinsert st a v) x = getObj st x := rfl

theorem unvisitedRecs_congr (heap₀ : List HObj) {st st' : St}
    (h : st'.visited = st.visited) :
    unvisitedRecs heap₀ st' = unvisitedRecs heap₀ st := by
  simp only [unvisitedRecs, h]

/-- The statement proved by strong induction on the number of unvisited
original records: popping a not-yet-visited original source Record and
merging it into a fresh-keyed record accumulator at `c ≥ |heap₀|`
succeeds and consumes exactly the head source, with controlled effects. -/
def MainStmt (heap₀ : List HObj) (m : Nat) : Prop :=
  ∀ (st : St) (c : Nat) (cf : List (String × Val)) (ra : Nat)
    (rfs : List (String × Val)) (rest : List Val) (f : Nat),
    Inv heap₀ st → unvisitedRecs heap₀ st ≤ m →
    heap₀.length ≤ c → getObj st c = some (.record cf) →
    ra < heap₀.length → heap₀[ra]? = some (.record rfs) →
    (∀ k ∈ rfs.map Prod.fst, alookup cf k = none) →
    vlookup st ra = none →
    2 * m + 1 ≤ f →
    ∃ st', deepMergeCore (f + 1) DEFAULT_OPTIONS (.ref c) (.ref ra :: rest) st
        = deepMergeCore f DEFAULT_OPTIONS (.ref c) rest st' ∧
      mergeKeys (fun cc ss stx => deepMergeCore f DEFAULT_OPTIONS cc ss stx)
          DEFAULT_OPTIONS (.ref c) ra (rfs.map Prod.fst)
          (vinsert st ra (.ref c)) = some st' ∧
      Inv heap₀ st' ∧
      (∃ δ, st'.visited = st.visited ++ (ra, Val.ref c) :: δ) ∧
      st.heap.length ≤ st'.heap.length ∧
      (∀ b, b < st.heap.length → b ≠ c → st'.heap[b]? = st.heap[b]?) ∧
      (∃ cf', getObj st' c = some (.record cf') ∧
        (∀ k, k ∉ rfs.map Prod.fst → alookup cf' k = alookup cf k) ∧
        (∀ k ra' d rfs'', alookup rfs k = some (.ref ra') →
          heap₀[ra']? = some (.record rfs'') →
          alookup (st.visited ++ [(ra, Val.ref c)]) ra' = some d →
          alookup cf' k = some d))

/-- The `for`-in loop over the keys of the original source record at `ra`
runs to completion on a current record whose listed keys are still absent,
with the `MainStmt` induction hypothesis available for nested records. -/
theorem loopRuns (heap₀ : List HObj) (hwf : wfHeap heap₀) (m f : Nat)
    (IH : ∀ m', m' < m → MainStmt heap₀ m')
    (hm : 1 ≤ m) (hf : 2 * m + 1 ≤ f)
    (c ra : Nat) (rfs : List (String × Val))
    (hc : heap₀.length ≤ c) (hra : ra < heap₀.length)
    (hrfs : heap₀[ra]? = some (.record rfs)) :
    ∀ (keys : List String) (st : St) (cf : List (String × Val)),
      keys.Nodup →
      (∀ k ∈ keys, alookup cf k = none) →
      Inv heap₀ st → unvisitedRecs heap₀ st + 1 ≤ m →
      getObj st c = some (.record cf) →
      ∃ st', mergeKeys (fun cc ss stx => deepMergeCore f DEFAULT_OPTIONS cc ss stx)
          DEFAULT_OPTIONS (.ref c) ra keys st = some st' ∧
        Inv heap₀ st' ∧ (∃ δ, st'.visited = st.visited ++ δ) ∧
        st.heap.length ≤ st'.heap.length ∧
        (∀ b, b < st.heap.length → b ≠ c → st'.heap[b]? = st.heap[b]?) ∧
        (∃ cf', getObj st' c = some (.record cf') ∧
          (∀ k, k ∉ keys → alookup cf' k = alookup cf k) ∧
          (∀ k, k ∈ keys → ∀ ra' d rfs'', alookup rfs k = some (.ref ra') →
            heap₀[ra']? = some (.record rfs'') →
            alookup st.visited ra' = some d →
            alookup cf' k = some d)) := by
  intro keys
  induction keys with
  | nil =>
    intro st cf _ _ hinv _ hg
    exact ⟨st, rfl, hinv, ⟨[], by simp⟩, le_refl _, fun b _ _ => rfl,
      ⟨cf, hg, fun k _ => rfl, fun k hk => absurd hk (List.not_mem_nil k)⟩⟩
  | cons k ks ih =>
    intro st cf hnd hfresh hinv hmeas hg
    rw [List.nodup_cons] at hnd
    have hfk : alookup cf k = none := hfresh k (List.mem_cons_self k ks)
    have hcl : c < st.heap.length := getObj_lt_length hg
    have hsrc : getObj st ra = some (.record rfs) := by
      unfold getObj
      rw [hinv.2.1 ra hra]
      exact hrfs
    have hsv0 := readProp_src k hsrc
    have hcL : c ≠ st.heap.length := Nat.ne_of_lt hcl
    -- One engine step on key `k`, uniformly packaged.
    have step : ∃ st₂ w,
        mergeKey (fun cc ss stx => deepMergeCore f DEFAULT_OPTIONS cc ss stx)
            DEFAULT_OPTIONS (.ref c) ra k st = some st₂ ∧
          StepOut heap₀ st st₂ c ∧
          getObj st₂ c = some (.record (asetFirst cf k w)) ∧
          (∀ ra' d rfs'', alookup rfs k = some (.ref ra') →
            heap₀[ra']? = some (.record rfs'') →
            alookup st.visited ra' = some d → w = d) := by
      rcases hlk : alookup rfs k with _ | v
      · -- absent key: `undefined`, primitive overwrite
        have hsv : readProp st (.ref ra) k = some (.prim .undef) := by
          rw [hlk] at hsv0
          simpa using hsv0
        obtain ⟨hso, hgc, _⟩ := stepOut_write heap₀ st c
          (asetFirst cf k (.prim .undef)) hinv hc hcl
        refine ⟨_, .prim .undef, mergeKey_eval_prim _ hsv rfl hg, hso, hgc, ?_⟩
        intro ra' d rfs'' hlk' _ _
        simp at hlk'
      · cases v with
        | prim p =>
          have hsv : readProp st (.ref ra) k = some (.prim p) := by
            rw [hlk] at hsv0
            simpa using hsv0
          obtain ⟨hso, hgc, _⟩ := stepOut_write heap₀ st c
            (asetFirst cf k (.prim p)) hinv hc hcl
          refine ⟨_, .prim p, mergeKey_eval_prim _ hsv rfl hg, hso, hgc, ?_⟩
          intro ra' d rfs'' hlk' _ _
          simp at hlk'
        | ref sa =>
          have hmem : (k, Val.ref sa) ∈ rfs := alookup_mem hlk
          have hrecmem : HObj.record rfs ∈ heap₀ :=
            List.mem_iff_getElem?.mpr ⟨ra, hrfs⟩
          have hwfo := hwf _ hrecmem
          unfold wfObj at hwfo
          rw [Bool.and_eq_true] at hwfo
          have hsa : sa < heap₀.length := by
            have hmm : Val.ref sa ∈ rfs.map Prod.snd :=
              List.mem_map.mpr ⟨(k, .ref sa), hmem, rfl⟩
            have hvb := List.all_eq_true.mp hwfo.1 _ hmm
            unfold valBelow at hvb
            exact of_decide_eq_true hvb
          have hsrco : st.heap[sa]? = heap₀[sa]? := hinv.2.1 sa hsa
          obtain ⟨o, ho⟩ : ∃ o, heap₀[sa]? = some o :=
            ⟨_, List.getElem?_eq_getElem hsa⟩
          have hgso : getObj st sa = some o := by
            unfold getObj
            rw [hsrco, ho]
          have hsv : readProp st (.ref ra) k = some (.ref sa) := by
            rw [hlk] at hsv0
            simpa using hsv0
          have hsac : sa ≠ c := Nat.ne_of_lt (lt_of_lt_of_le hsa hc)
          cases o with
          | array l =>
            obtain ⟨hso, hgc, _, _⟩ := stepOut_alloc_write heap₀ st c (.array l)
              (asetFirst cf k (.ref st.heap.length)) hinv hc hcl
            refine ⟨_, .ref st.heap.length,
              mergeKey_eval_array _ hsv hgso hg hfk, hso, hgc, ?_⟩
            intro ra' d rfs'' hlk' hro' _
            injection hlk' with h
            injection h with h2
            rw [← h2, ho] at hro'
            simp at hro'
          | set l =>
            obtain ⟨hso, hgc, _, _⟩ := stepOut_alloc_write heap₀ st c
              (.set (dedupList l))
              (asetFirst cf k (.ref st.heap.length)) hinv hc hcl
            refine ⟨_, .ref st.heap.length,
              mergeKey_eval_set _ hsv hgso hg hfk, hso, hgc, ?_⟩
            intro ra' d rfs'' hlk' hro' _
            injection hlk' with h
            injection h with h2
            rw [← h2, ho] at hro'
            simp at hro'
          | map es =>
            obtain ⟨hso, hgc, _, _⟩ := stepOut_alloc_write heap₀ st c
              (.map (jsMapFrom es))
              (asetFirst cf k (.ref st.heap.length)) hinv hc hcl
            refine ⟨_, .ref st.heap.length,
              mergeKey_eval_map _ hsv hgso hg hfk, hso, hgc, ?_⟩
            intro ra' d rfs'' hlk' hro' _
            injection hlk' with h
            injection h with h2
            rw [← h2, ho] at hro'
            simp at hro'
          | date t =>
            obtain ⟨hso, hgc, _⟩ := stepOut_write heap₀ st c
              (asetFirst cf k (.ref sa)) hinv hc hcl
            refine ⟨_, .ref sa,
              mergeKey_eval_date _ hsv hgso hg hfk, hso, hgc, ?_⟩
            intro ra' d rfs'' hlk' hro' _
            injection hlk' with h
            injection h with h2
            rw [← h2, ho] at hro'
            simp at hro'
          | record rfs' =>
            have hstep := mergeKey_eval_record
              (fun cc ss stx => deepMergeCore f DEFAULT_OPTIONS cc ss stx)
              hsv hgso hg hfk
            obtain ⟨hsob, hgb, hvisb, hgLb⟩ := stepOut_alloc_write heap₀ st c
              (.record []) (asetFirst cf k (.ref st.heap.length)) hinv hc hcl
            have hlenb : (setObj (alloc st (.record [])).2 c
                (.record (asetFirst cf k (.ref st.heap.length)))).heap.length
                = st.heap.length + 1 := by
              rw [length_setObj]
              simp [alloc]
            have hclb : c < (setObj (alloc st (.record [])).2 c
                (.record (asetFirst cf k (.ref st.heap.length)))).heap.length := by
              omega
            obtain ⟨f₁, hf₁⟩ : ∃ f₁, f = f₁ + 1 := ⟨f - 1, by omega⟩
            rcases hv : alookup st.visited sa with _ | d
            · -- nested source not yet visited: recurse via the IH
              have hmeasb : unvisitedRecs heap₀ (setObj (alloc st (.record [])).2 c
                  (.record (asetFirst cf k (.ref st.heap.length)))) ≤ m - 1 := by
                have hcg := unvisitedRecs_congr heap₀ hvisb
                omega
              have hvb : vlookup (setObj (alloc st (.record [])).2 c
                  (.record (asetFirst cf k (.ref st.heap.length)))) sa = none := by
                unfold vlookup
                rw [hvisb]
                exact hv
              obtain ⟨st₃, heq₃, _, hinv₃, ⟨δ₃, hδ₃⟩, hlen₃, hpres₃, _⟩ :=
                IH (m - 1) (by omega) _ st.heap.length [] sa rfs' [] f₁
                  hsob.1 hmeasb hinv.1 hgLb hsa ho (fun k' _ => rfl) hvb
                  (by omega)
              obtain ⟨f₂, hf₂⟩ : ∃ f₂, f₁ = f₂ + 1 := ⟨f₁ - 1, by omega⟩
              have hFeq : deepMergeCore f DEFAULT_OPTIONS (.ref st.heap.length)
                  [.ref sa] (setObj (alloc st (.record [])).2 c
                    (.record (asetFirst cf k (.ref st.heap.length))))
                  = some (.ref st.heap.length, st₃) := by
                rw [hf₁, heq₃, hf₂]
                exact core_nil f₂ _ _ _
              have hgc₃ : getObj st₃ c
                  = some (.record (asetFirst cf k (.ref st.heap.length))) := by
                unfold getObj
                rw [hpres₃ c (by omega) hcL]
                exact hgb
              have hmk : mergeKey
                  (fun cc ss stx => deepMergeCore f DEFAULT_OPTIONS cc ss stx)
                  DEFAULT_OPTIONS (.ref c) ra k st
                  = some (setObj st₃ c
                      (.record (asetFirst cf k (.ref st.heap.length)))) := by
                rw [hstep]
                simp only [hFeq]
                simp [writeProp, hgc₃, asetFirst_asetFirst]
              obtain ⟨hso₃, hg₂, hvis₂⟩ := stepOut_write heap₀ st₃ c
                (asetFirst cf k (.ref st.heap.length)) hinv₃ hc
                (by omega)
              refine ⟨_, .ref st.heap.length, hmk, ?_, hg₂, ?_⟩
              · refine ⟨hso₃.1, ⟨(sa, .ref st.heap.length) :: δ₃, ?_⟩, ?_, ?_⟩
                · rw [hvis₂, hδ₃, hvisb]
                · calc st.heap.length ≤ st.heap.length + 1 := by omega
                    _ ≤ st₃.heap.length := by rw [← hlenb]; exact hlen₃
                    _ = _ := (length_setObj st₃ c _).symm
                · intro b hb hbc
                  have h1 := hso₃.2.2.2 b (by omega) hbc
                  have h2 := hpres₃ b (by omega) (Nat.ne_of_lt hb)
                  have h3 := hsob.2.2.2 b hb hbc
                  rw [h1, h2, h3]
              · intro ra' d rfs'' hlk' _ hbind
                injection hlk' with h
                injection h with h2
                rw [← h2, hv] at hbind
                cases hbind
            · -- nested source already visited: short-circuit to its
              -- tracked destination
              have hgbsa : getObj (setObj (alloc st (.record [])).2 c
                  (.record (asetFirst cf k (.ref st.heap.length)))) sa
                  = some (.record rfs') := by
                unfold getObj
                rw [hsob.2.2.2 sa (by omega) hsac, hsrco, ho]
              have hisob : isObject (setObj (alloc st (.record [])).2 c
                  (.record (asetFirst cf k (.ref st.heap.length)))) (.ref sa)
                  = true := by
                simp [isObject, hgbsa]
              have hvb : vlookup (setObj (alloc st (.record [])).2 c
                  (.record (asetFirst cf k (.ref st.heap.length)))) sa
                  = some d := by
                unfold vlookup
                rw [hvisb]
                exact hv
              have hFeq : deepMergeCore f DEFAULT_OPTIONS (.ref st.heap.length)
                  [.ref sa] (setObj (alloc st (.record [])).2 c
                    (.record (asetFirst cf k (.ref st.heap.length))))
                  = some (d, setObj (alloc st (.record [])).2 c
                      (.record (asetFirst cf k (.ref st.heap.length)))) := by
                rw [hf₁]
                exact core_visited_hit f₁ _ _ _ sa [] d hisob hvb
              have hmk : mergeKey
                  (fun cc ss stx => deepMergeCore f DEFAULT_OPTIONS cc ss stx)
                  DEFAULT_OPTIONS (.ref c) ra k st
                  = some (setObj (setObj (alloc st (.record [])).2 c
                      (.record (asetFirst cf k (.ref st.heap.length)))) c
                      (.record (asetFirst cf k d))) := by
                rw [hstep]
                simp only [hFeq]
                simp [writeProp, hgb, asetFirst_asetFirst]
              obtain ⟨hso₂, hg₂, hvis₂⟩ := stepOut_write heap₀ _ c
                (asetFirst cf k d) hsob.1 hc hclb
              refine ⟨_, d, hmk, stepOut_trans hsob hso₂, hg₂, ?_⟩
              intro ra' d₀ rfs'' hlk' _ hbind
              injection hlk' with h
              injection h with h2
              rw [← h2, hv] at hbind
              injection hbind
    -- compose the head step with the remaining keys
    obtain ⟨st₂, w, hmk, hso₂, hg₂, hwd⟩ := step
    obtain ⟨hinv₂, ⟨δ₁, hδ₁⟩, hlen₂, hpres₂⟩ := hso₂
    have hmeas₂ : unvisitedRecs heap₀ st₂ + 1 ≤ m :=
      le_trans (Nat.add_le_add_right
        (unvisitedRecs_le_of_append heap₀ ⟨δ₁, hδ₁⟩) 1) hmeas
    have hfresh₂ : ∀ k' ∈ ks, alookup (asetFirst cf k w) k' = none := by
      intro k' hk'
      have hne : k' ≠ k := fun h => hnd.1 (h ▸ hk')
      rw [alookup_asetFirst_ne cf w hne]
      exact hfresh k' (List.mem_cons_of_mem k hk')
    obtain ⟨st', hrun, hinv', ⟨δ₂, hδ₂⟩, hlen', hpres', cf', hg', hcp', hck'⟩ :=
      ih st₂ (asetFirst cf k w) hnd.2 hfresh₂ hinv₂ hmeas₂ hg₂
    refine ⟨st', ?_, hinv',
      ⟨δ₁ ++ δ₂, by rw [hδ₂, hδ₁, List.append_assoc]⟩,
      le_trans hlen₂ hlen', ?_, cf', hg', ?_, ?_⟩
    · simp only [mergeKeys, hmk]
      exact hrun
    · intro b hb hbc
      rw [hpres' b (lt_of_lt_of_le hb hlen₂) hbc, hpres₂ b hb hbc]
    · intro k'' hk''
      have hk1 : k'' ≠ k := fun h => hk'' (h ▸ List.mem_cons_self k ks)
      have hk2 : k'' ∉ ks := fun h => hk'' (List.mem_cons_of_mem k h)
      rw [hcp' k'' hk2, alookup_asetFirst_ne cf w hk1]
    · intro k' hk' ra' d rfs'' hlk' hro' hbind
      rcases List.mem_cons.mp hk' with rfl | hk'ks
      · rw [hcp' k' hnd.1, alookup_asetFirst_self]
        rw [hwd ra' d rfs'' hlk' hro' hbind]
      · refine hck' k' hk'ks ra' d rfs'' hlk' hro' ?_
        rw [hδ₁]
        exact alookup_append_left hbind

/-- Merging a not-yet-visited original source Record always succeeds, by
strong induction on the number of unvisited original records. -/
theorem mainRuns (heap₀ : List HObj) (hwf : wfHeap heap₀) :
    ∀ m, MainStmt heap₀ m := by
  intro m
  induction m using Nat.strong_induction_on with
  | _ m IH =>
    intro st c cf ra rfs rest f hinv hmeas hc hg hra hrfs hfresh hun hf
    have hsrc : getObj st ra = some (.record rfs) := by
      unfold getObj
      rw [hinv.2.1 ra hra]
      exact hrfs
    have hobj : isObject st (.ref ra) = true := by
      simp [isObject, hsrc]
    have hun' : alookup st.visited ra = none := hun
    have hm : 1 ≤ m := by
      have hmem : ra ∈ (List.range heap₀.length).filter (fun b =>
          (match heap₀[b]? with | some (.record _) => true | _ => false) &&
            (alookup st.visited b).isNone) := by
        rw [List.mem_filter]
        exact ⟨List.mem_range.mpr hra, by simp [hrfs, hun']⟩
      have hpos : 0 < unvisitedRecs heap₀ st :=
        List.length_pos_of_mem hmem
      omega
    have hrecmem : HObj.record rfs ∈ heap₀ :=
      List.mem_iff_getElem?.mpr ⟨ra, hrfs⟩
    have hwfo := hwf _ hrecmem
    unfold wfObj at hwfo
    rw [Bool.and_eq_true] at hwfo
    have hnodup : (rfs.map Prod.fst).Nodup := of_decide_eq_true hwfo.2
    have hinv₁ : Inv heap₀ (vinsert st ra (.ref c)) := by
      refine ⟨hinv.1, hinv.2.1, ?_⟩
      intro p hp
      rw [vinsert_visited] at hp
      rcases List.mem_append.mp hp with hp | hp
      · exact hinv.2.2 p hp
      · rw [List.mem_singleton] at hp
        rw [hp]
        exact hra
    have hmeas₁ : unvisitedRecs heap₀ (vinsert st ra (.ref c)) + 1 ≤ m := by
      have := unvisitedRecs_vinsert_lt heap₀ st ra (.ref c) hra rfs hrfs hun'
      omega
    have hg₁ : getObj (vinsert st ra (.ref c)) c = some (.record cf) := hg
    obtain ⟨st', hrun, hinv', ⟨δ, hδ⟩, hlen', hpres', cf', hg', hcp', hck'⟩ :=
      loopRuns heap₀ hwf m f IH hm hf c ra rfs hc hra hrfs (rfs.map Prod.fst)
        (vinsert st ra (.ref c)) cf hnodup hfresh hinv₁ hmeas₁ hg₁
    refine ⟨st', ?_, hrun, hinv',
      ⟨δ, by rw [hδ, vinsert_visited, List.append_assoc]; rfl⟩,
      hlen', hpres', cf', hg', hcp', ?_⟩
    · have hnn : ¬(Val.ref ra = Val.prim .undef ∨ Val.ref ra = Val.prim .null) := by
        simp
      simp only [deepMergeCore]
      rw [if_neg hnn, if_pos hobj]
      have hg₂ : getObj (vinsert st ra (.ref c)) ra = some (.record rfs) := hsrc
      simp only [hun, hg₂, objKeys, hrun]
    · intro k ra' d rfs'' hlk hro hbind
      have hkmem : k ∈ rfs.map Prod.fst :=
        List.mem_map.mpr ⟨(k, .ref ra'), alookup_mem hlk, rfl⟩
      refine hck' k hkmem ra' d rfs'' hlk hro ?_
      rw [vinsert_visited]
      exact hbind

/-! ## C3: self-referential Records terminate, preserving the back-edge -/

/-- C3: for every well-formed heap and Record `x` (at address `a`) that
contains itself under some key `k`, `deepMerge(x)` terminates — some finite
fuel yields a result — and the result is the fresh accumulator Record whose
field `k` is that very accumulator (the same reference). -/
theorem claim3_self_cycle_terminates (heap₀ : List HObj) (a : Nat) (k : String)
    (fs : List (String × Val)) (hwf : wfHeap heap₀)
    (ha : heap₀[a]? = some (.record fs))
    (hk : alookup fs k = some (.ref a)) :
    ∃ fuel v st', deepMergeRun fuel heap₀ [.ref a] = some (v, st') ∧
      v = .ref heap₀.length ∧
      ∃ cf, getObj st' heap₀.length = some (.record cf) ∧
        alookup cf k = some (.ref heap₀.length) := by
  have halt : a < heap₀.length := by
    by_contra h
    rw [List.getElem?_eq_none (Nat.le_of_not_lt h)] at ha
    cases ha
  have hinv₀ : Inv heap₀ ⟨heap₀ ++ [.record []], []⟩ := by
    refine ⟨by simp, ?_, ?_⟩
    · intro b hb
      exact List.getElem?_append_left hb
    · intro p hp
      exact absurd hp (List.not_mem_nil p)
  have hg₀ : getObj ⟨heap₀ ++ [.record []], []⟩ heap₀.length
      = some (.record []) := by
    unfold getObj
    simp
  obtain ⟨st', heq, _, _, _, _, _, cf', hg', _, hck'⟩ :=
    mainRuns heap₀ hwf (unvisitedRecs heap₀ ⟨heap₀ ++ [.record []], []⟩)
      ⟨heap₀ ++ [.record []], []⟩ heap₀.length [] a fs []
      (2 * unvisitedRecs heap₀ ⟨heap₀ ++ [.record []], []⟩ + 1)
      hinv₀ (le_refl _) (le_refl _) hg₀ halt ha (fun k' _ => rfl) rfl
      (le_refl _)
  obtain ⟨g, hg1⟩ : ∃ g, 2 * unvisitedRecs heap₀ ⟨heap₀ ++ [.record []], []⟩ + 1
      = g + 1 := ⟨_, rfl⟩
  refine ⟨2 * unvisitedRecs heap₀ ⟨heap₀ ++ [.record []], []⟩ + 1 + 1,
    .ref heap₀.length, st', ?_, rfl, cf', hg', ?_⟩
  · unfold deepMergeRun
    rw [heq, hg1]
    exact core_nil g _ _ _
  · refine hck' k a (.ref heap₀.length) fs hk ha ?_
    simp

/-- Witness for C3: `x = {k: x}`. -/
theorem claim3_self_cycle_terminates_witness :
    ∃ fuel v st',
      deepMergeRun fuel [.record [("k", .ref 0)]] [.ref 0] = some (v, st') ∧
      v = .ref 1 ∧
      ∃ cf, getObj st' 1 = some (.record cf) ∧
        alookup cf "k" = some (.ref 1) :=
  claim3_self_cycle_terminates [.record [("k", .ref 0)]] 0 "k"
    [("k", .ref 0)] (by decide) (by decide) (by decide)

/-- The hypothesis class of the idempotence property: the value unfolds to a
finite tree of Records and Primitives (acyclic, no collection fields). -/
def treelike : Nat → List HObj → Val → Bool
  | 0, _, _ => false
  | _ + 1, _, .prim _ => true
  | fl + 1, h, .ref a =>
    match h[a]? with
    | some (.record fl2) => fl2.all (fun p => treelike fl h p.2)
    | _ => false

/-! ## C9: self-merge idempotence -/

/-- C9: for an acyclic Record `x` whose fields are (transitively) only
Primitives or Records, `deepMerge(x, x)` equals `deepMerge(x)`: the second
occurrence of `x` hits the cycle tracker immediately and returns the very
accumulator produced by the first, so both calls produce literally the same
result value and final state (hence equality field-for-field). -/
theorem claim9_self_merge_idempotent (heap₀ : List HObj) (a : Nat)
    (fs : List (String × Val)) (tf : Nat) (hwf : wfHeap heap₀)
    (ha : heap₀[a]? = some (.record fs))
    (htree : treelike tf heap₀ (.ref a) = true) :
    ∃ fuel r, deepMergeRun fuel heap₀ [.ref a, .ref a] = some r ∧
      deepMergeRun fuel heap₀ [.ref a] = some r := by
  have halt : a < heap₀.length := by
    by_contra h
    rw [List.getElem?_eq_none (Nat.le_of_not_lt h)] at ha
    cases ha
  have hinv₀ : Inv heap₀ ⟨heap₀ ++ [.record []], []⟩ := by
    refine ⟨by simp, ?_, ?_⟩
    · intro b hb
      exact List.getElem?_append_left hb
    · intro p hp
      exact absurd hp (List.not_mem_nil p)
  have hg₀ : getObj ⟨heap₀ ++ [.record []], []⟩ heap₀.length
      = some (.record []) := by
    unfold getObj
    simp
  obtain ⟨st₁, heq₁, hkeys₁, _, _, _, _, _⟩ :=
    mainRuns heap₀ hwf (unvisitedRecs heap₀ ⟨heap₀ ++ [.record []], []⟩)
      ⟨heap₀ ++ [.record []], []⟩ heap₀.length [] a fs []
      (2 * unvisitedRecs heap₀ ⟨heap₀ ++ [.record []], []⟩ + 1)
      hinv₀ (le_refl _) (le_refl _) hg₀ halt ha (fun k' _ => rfl) rfl
      (le_refl _)
  obtain ⟨st₂, heq₂, hkeys₂, hinv₂, ⟨δ₂, hδ₂⟩, _, _, _⟩ :=
    mainRuns heap₀ hwf (unvisitedRecs heap₀ ⟨heap₀ ++ [.record []], []⟩)
      ⟨heap₀ ++ [.record []], []⟩ heap₀.length [] a fs [.ref a]
      (2 * unvisitedRecs heap₀ ⟨heap₀ ++ [.record []], []⟩ + 1)
      hinv₀ (le_refl _) (le_refl _) hg₀ halt ha (fun k' _ => rfl) rfl
      (le_refl _)
  have hsame : st₁ = st₂ := by
    rw [hkeys₁] at hkeys₂
    injection hkeys₂
  subst hsame
  obtain ⟨g, hg1⟩ : ∃ g, 2 * unvisitedRecs heap₀ ⟨heap₀ ++ [.record []], []⟩ + 1
      = g + 1 := ⟨_, rfl⟩
  have hobj₁ : isObject st₁ (.ref a) = true := by
    have : getObj st₁ a = some (.record fs) := by
      unfold getObj
      rw [hinv₂.2.1 a halt]
      exact ha
    simp [isObject, this]
  have hvis₁ : vlookup st₁ a = some (.ref heap₀.length) := by
    unfold vlookup
    rw [hδ₂]
    simp
  refine ⟨2 * unvisitedRecs heap₀ ⟨heap₀ ++ [.record []], []⟩ + 1 + 1,
    (.ref heap₀.length, st₁), ?_, ?_⟩
  · unfold deepMergeRun
    rw [heq₂, hg1]
    exact core_visited_hit g _ _ _ a [] _ hobj₁ hvis₁
  · unfold deepMergeRun
    rw [heq₁, hg1]
    exact core_nil g _ _ _

/-- Witness for C9: `x = {x: 1}`. -/
theorem claim9_self_merge_idempotent_witness :
    ∃ fuel r,
      deepMergeRun fuel [.record [("x", .prim (.num 1))]] [.ref 0, .ref 0]
        = some r ∧
      deepMergeRun fuel [.record [("x", .prim (.num 1))]] [.ref 0] = some r :=
  claim9_self_merge_idempotent [.record [("x", .prim (.num 1))]] 0
    [("x", .prim (.num 1))] 2 (by decide) (by decide) (by decide)

end DeepMerge
